import Mathlib

/-
Verification of the Region Aggregation & Correlation Engine
(regions.py, dataset.py, final_report.py, regression.py).

The Python code is shallowly embedded: Python dicts become association
lists (key order = insertion order, as in CPython), the Python `None`
sentinel stored in a metric series becomes an inner `Option`, a read of a
missing dict key (Python `KeyError`) is the outer `Option`/`Except` layer,
real numbers become `ℚ`, and statements that can raise become values in
`Except`.  A `ZeroDivisionError` raised by the code is modelled by an
explicit zero test guarding the corresponding division.
-/

set_option linter.unusedVariables false

/-- Exceptions the embedded dataset code can raise: Python's
`ZeroDivisionError` (division by an exact zero) and `KeyError`
(read of a missing dict key). -/
inductive PyError where
  | zeroDivisionError
  | keyError
  deriving DecidableEq, Repr

/-- Failures of the regression routines.  Python raises `ZeroDivisionError`
in both cases; the two constructors record the raise site:
`insufficientData` is the `ZeroDivisionError` raised by `mean` on an empty
list (`sum(values) / len(values)` with `len = 0`), `degenerateInput` is the
`ZeroDivisionError` raised by a division by a zero denominator (zero
x-spread in `linear_regression`, zero y-variance in
`strength_of_correlation`). -/
inductive RegressionError where
  | insufficientData
  | degenerateInput
  deriving DecidableEq, Repr

/-- Python dict read `d[k]`, returning `none` when the key is absent
(the situation in which Python raises `KeyError`). -/
def aget {κ α : Type} [DecidableEq κ] : List (κ × α) → κ → Option α
  | [], _ => none
  | p :: t, k => if p.1 = k then some p.2 else aget t k

/-- Python dict read `d[k]` as a fallible computation: `KeyError` when
the key is absent. -/
def agetE {κ α : Type} [DecidableEq κ] (d : List (κ × α)) (k : κ) : Except PyError α :=
  match aget d k with
  | some v => Except.ok v
  | none => Except.error PyError.keyError

/-- Python dict write `d[k] = v`: overwrite in place when the key exists
(keeping its position, as CPython keeps insertion order), append otherwise. -/
def aset {κ α : Type} [DecidableEq κ] : List (κ × α) → κ → α → List (κ × α)
  | [], k, v => [(k, v)]
  | p :: t, k, v => if p.1 = k then (k, v) :: t else p :: aset t k v

/-- Python `del d[k]` (on a dict with unique keys). -/
def adel {κ α : Type} [DecidableEq κ] (d : List (κ × α)) (k : κ) : List (κ × α) :=
  d.filter (fun p => p.1 ≠ k)

/-- The key list of a dict, in insertion order. -/
def akeys {κ α : Type} (d : List (κ × α)) : List κ := d.map Prod.fst

/-- Python `range(lo, hi)` over integers. -/
def intRange (lo hi : Int) : List Int :=
  (List.range (hi - lo).toNat).map (fun (i : Nat) => lo + (i : Int))

/-- A metric series: a Python dict from year to a stored value, where the
stored value `none` is the Python `None` "no data" sentinel. -/
abbrev PyDict := List (Int × Option ℚ)

/-- A dict whose keys are exactly the analysis window 1951..2016 in order,
with value `f y` stored at year `y`; every series built by the pipeline has
this shape. -/
def windowDict (f : Int → Option ℚ) : PyDict :=
  (intRange 1951 2017).map (fun y => (y, f y))

/-- regions.py `defualt_dict`: `{year: None for year in range(1951, 2017)}`. -/
def defualt_dict : PyDict := windowDict (fun _ => none)

/-- Python `min(d)` on a dict: the least key (0 is a junk value for the
empty dict, where Python would raise `ValueError`; every use in the code is
guarded by an emptiness check). -/
def minKey : PyDict → Int
  | [] => 0
  | p :: t => t.foldl (fun m q => min m q.1) p.1

/-- regions.py `Region`: one geographic region and its metric series.
Numeric scalars that default to Python `None` are `Option ℚ`. -/
structure Region where
  name : String
  continent : Option String := none
  population : PyDict := defualt_dict
  has_carbon_tax : Bool := false
  co2_emissions : PyDict := defualt_dict
  co2_emissions_per_capita : PyDict := defualt_dict
  gdp : PyDict := defualt_dict
  gdp_per_capita : PyDict := defualt_dict
  renewable_energy : PyDict := defualt_dict
  renewable_energy_per_capita : PyDict := defualt_dict
  projected_damage : Option ℚ := none
  percentage_concerned : Option ℚ := none
  region_score : Option ℚ := none
  deriving DecidableEq

/-- `DataSet.regions`: the registry dict from canonical name to `Region`. -/
abbrev RegDict := List (String × Region)

/-- regression.py `Regression.mean`: `sum(values) / len(values)`; with an
empty list the division is by zero and Python raises (`insufficientData`
site). -/
def Regression.mean (values : List ℚ) : Except RegressionError ℚ :=
  if values.length = 0 then Except.error RegressionError.insufficientData
  else Except.ok (values.sum / (values.length : ℚ))

/-- regression.py `Regression.linear_regression`: least-squares slope and
intercept.  The Python loop accumulates `numerator` and `denominator`
together; the two folds here accumulate the same sums.  When the
denominator is zero Python raises `ZeroDivisionError` at `numerator /
denominator` (`degenerateInput` site). -/
def Regression.linear_regression (x_values y_values : List ℚ) :
    Except RegressionError (ℚ × ℚ) := do
  let n := x_values.length
  let x_mean ← Regression.mean x_values
  let y_mean ← Regression.mean y_values
  let numerator := (List.range n).foldl
    (fun acc i => acc + (x_values.getD i 0 - x_mean) * (y_values.getD i 0 - y_mean)) 0
  let denominator := (List.range n).foldl
    (fun acc i => acc + (x_values.getD i 0 - x_mean) ^ 2) 0
  if denominator = 0 then Except.error RegressionError.degenerateInput
  else
    let slope := numerator / denominator
    let intercept := y_mean - slope * x_mean
    Except.ok (slope, intercept)

/-- regression.py `Regression.strength_of_correlation`: `R² = 1 - s_res /
s_tot`; when `s_tot` is zero Python raises `ZeroDivisionError`
(`degenerateInput` site). -/
def Regression.strength_of_correlation (slope intercept : ℚ)
    (x_values y_values : List ℚ) : Except RegressionError ℚ := do
  let y_mean ← Regression.mean y_values
  let s_tot := (List.range y_values.length).foldl
    (fun acc i => acc + (y_values.getD i 0 - y_mean) ^ 2) 0
  let s_res := (List.range y_values.length).foldl
    (fun acc i => acc + (y_values.getD i 0 - (intercept + slope * x_values.getD i 0)) ^ 2) 0
  if s_tot = 0 then Except.error RegressionError.degenerateInput
  else Except.ok (1 - s_res / s_tot)

/-- One record of `CO2_emissions.json` for a region, pre-parsed: the `year`
entry and the optional `co2` entry (`none` when the record has no `co2`
key). -/
structure CO2Line where
  year : Int
  co2 : Option ℚ
  deriving DecidableEq

/-- One row of the IRENA renewable-electricity csv, pre-parsed: the region
identifier from column 1 and, for each column index `i` in 3..19, the
parsed cell value (`none` for a blank cell). -/
structure EnergyRow where
  region : String
  amounts : Int → Option ℚ

/-- dataset.py `DataSet.initialise_regions`: build the registry from the
master list of (name, continent) pairs parsed from country_names.csv, then
rename the United Kingdom and the United States entries to their canonical
names; each rename reads the long-name entry (raising `KeyError` when it is
missing), deletes it, and re-inserts the region under the short name. -/
def DataSet.initialise_regions (master : List (String × String)) : Except PyError RegDict := do
  let regions := master.foldl
    (fun rs nc => aset rs nc.1 { name := nc.1, continent := some nc.2 }) []
  let uk ← agetE regions "United Kingdom of Great Britain & Northern Ireland"
  let regions := adel regions "United Kingdom of Great Britain & Northern Ireland"
  let regions := aset regions "United Kingdom" uk
  let us ← agetE regions "United States of America"
  let regions := adel regions "United States of America"
  let regions := aset regions "United States" us
  Except.ok regions

/-- Body of the dataset.py `DataSet.initialise_co2_emissions` inner loop for
one region: write every record whose year lies in 1951..2016 and which
carries a `co2` key into the region's series at that year. -/
def DataSet.co2_update (data : List CO2Line) (d : PyDict) : PyDict :=
  data.foldl
    (fun d line =>
      if 1951 ≤ line.year ∧ line.year ≤ 2016 ∧ (line.co2).isSome
      then aset d line.year line.co2 else d) d

/-- dataset.py `DataSet.initialise_co2_emissions`: for every registered
region that appears in the JSON data set, merge its records into the
region's `co2_emissions` series; regions absent from the data set are
skipped. -/
def DataSet.initialise_co2_emissions (data_set : String → Option (List CO2Line))
    (regions : RegDict) : RegDict :=
  regions.map (fun p =>
    match data_set p.1 with
    | none => p
    | some data =>
        (p.1, { p.2 with co2_emissions := DataSet.co2_update data p.2.co2_emissions }))

/-- Body of the dataset.py `DataSet.energy_production` inner loop for one
row: for each column index `i` in `range(3, 20)` holding a value, write it
into the series at year `1997 + i`. -/
def DataSet.renewable_update (amounts : Int → Option ℚ) (d : PyDict) : PyDict :=
  (intRange 3 20).foldl
    (fun d i =>
      match amounts i with
      | none => d
      | some amt => aset d (1997 + i) (some amt)) d

/-- dataset.py `DataSet.energy_production`: for each csv row, map the
source-specific identifiers USA and UK to the canonical region names, skip
rows whose identifier is not a registered region, and merge the row's
yearly values into that region's `renewable_energy` series. -/
def DataSet.energy_production (rows : List EnergyRow) (regions : RegDict) : RegDict :=
  rows.foldl
    (fun regs row =>
      let region := if row.region = "USA" then "United States"
        else if row.region = "UK" then "United Kingdom" else row.region
      match aget regs region with
      | none => regs
      | some r =>
          aset regs region
            { r with renewable_energy :=
                DataSet.renewable_update row.amounts r.renewable_energy })
    regions

/-- The shared body of the three per-capita initialisers of dataset.py
(`initialise_gdp_per_capita`, `initialise_co2_emissions_per_capita`,
`initialise_renewables_per_capita`) for one region: skip the region when
either dict is empty, start at the larger of the two least keys, and for
each year up to 2016 read the base value then the population value (each
read can raise `KeyError`) and, when both are present, write
`base / population` into the derived series; a present-but-zero population
raises `ZeroDivisionError` at the division. -/
def DataSet.per_capita_step (base population : PyDict) (d : PyDict) (year : Int) :
    Except PyError PyDict := do
  let b ← agetE base year
  match b with
  | none => Except.ok d
  | some bv => do
    let p ← agetE population year
    match p with
    | none => Except.ok d
    | some pv =>
      if pv = 0 then Except.error PyError.zeroDivisionError
      else Except.ok (aset d year (some (bv / pv)))

/-- The per-year loop of the per-capita initialisers assembled over
`range(start_year, 2017)`. -/
def DataSet.per_capita_update (base population derived : PyDict) : Except PyError PyDict :=
  if population = [] ∨ base = [] then Except.ok derived
  else
    let start_year := max (minKey population) (minKey base)
    (intRange start_year 2017).foldlM (DataSet.per_capita_step base population) derived

/-- dataset.py `DataSet.initialise_gdp_per_capita` over the registry. -/
def DataSet.initialise_gdp_per_capita (regions : RegDict) : Except PyError RegDict :=
  regions.mapM (fun p => do
    let d ← DataSet.per_capita_update p.2.gdp p.2.population p.2.gdp_per_capita
    Except.ok (p.1, { p.2 with gdp_per_capita := d }))

/-- dataset.py `DataSet.initialise_co2_emissions_per_capita` over the
registry. -/
def DataSet.initialise_co2_emissions_per_capita (regions : RegDict) :
    Except PyError RegDict :=
  regions.mapM (fun p => do
    let d ← DataSet.per_capita_update p.2.co2_emissions p.2.population
      p.2.co2_emissions_per_capita
    Except.ok (p.1, { p.2 with co2_emissions_per_capita := d }))

/-- dataset.py `DataSet.initialise_renewables_per_capita` over the
registry. -/
def DataSet.initialise_renewables_per_capita (regions : RegDict) :
    Except PyError RegDict :=
  regions.mapM (fun p => do
    let d ← DataSet.per_capita_update p.2.renewable_energy p.2.population
      p.2.renewable_energy_per_capita
    Except.ok (p.1, { p.2 with renewable_energy_per_capita := d }))

/-- dataset.py `DataSet.initialise_projected_damage`: each pre-parsed line
is a (region identifier, projected damage) pair; a registered identifier
sets that region's scalar, the identifier "United States of America" sets
the "United States" entry (raising `KeyError` when that entry is missing),
and any other unknown identifier is dropped. -/
def DataSet.initialise_projected_damage (rows : List (String × ℚ)) (regions : RegDict) :
    Except PyError RegDict :=
  rows.foldlM
    (fun regs line =>
      match aget regs line.1 with
      | some r => Except.ok (aset regs line.1 { r with projected_damage := some line.2 })
      | none =>
        if line.1 = "United States of America" then do
          let r ← agetE regs "United States"
          Except.ok (aset regs "United States" { r with projected_damage := some line.2 })
        else Except.ok regs)
    regions

/-- Body of dataset.py `DataSet.initialise_region_score` for one region:
read the 2016 renewable and emission entries, leave the score unset when
either is the `None` sentinel, otherwise the score is
`renewable / emission` (Python raises `ZeroDivisionError` when the emission
value is zero), multiplied by 10 when the region has a carbon tax. -/
def DataSet.initialise_region_score_region (region : Region) : Except PyError Region := do
  let renewable ← agetE region.renewable_energy 2016
  let emission ← agetE region.co2_emissions 2016
  match renewable, emission with
  | some r, some e =>
    if e = 0 then Except.error PyError.zeroDivisionError
    else
      let score := r / e
      let score := if region.has_carbon_tax then score * 10 else score
      Except.ok { region with region_score := some score }
  | _, _ => Except.ok region

/-- dataset.py `DataSet.initialise_region_score` over the registry. -/
def DataSet.initialise_region_score (regions : RegDict) : Except PyError RegDict :=
  regions.mapM (fun p => do
    let r ← DataSet.initialise_region_score_region p.2
    Except.ok (p.1, r))

/-- The inner `for i in range(10)` of the two top-10 loops of
final_report.py: scan the current leader list (which always has exactly 10
entries, so scanning the list is scanning `range(10)`) and insert the
candidate immediately before the first leader with a strictly lower score;
no insertion happens when no leader scores strictly lower. -/
def FinalReport.insert_before_lower (p : Option String × ℚ) :
    List (Option String × ℚ) → List (Option String × ℚ)
  | [] => []
  | q :: rest =>
    if q.2 < p.2 then p :: q :: rest else q :: FinalReport.insert_before_lower p rest

/-- One candidate pass of the top-10 loops: insert, then truncate the
leader list back to 10 entries (`top10 = top10[:10]`; when no insertion
happened the list already has 10 entries and the truncation is the
identity). -/
def FinalReport.top10_step (top10 : List (Option String × ℚ)) (name : String) (score : ℚ) :
    List (Option String × ℚ) :=
  (FinalReport.insert_before_lower (some name, score) top10).take 10

/-- The leader list built by final_report.py `FinalReport.greatest_help`
before names are projected out: fold over the registry starting from ten
`(None, 0)` sentinel slots, skipping regions whose score is the `None`
sentinel. -/
def FinalReport.greatest_help_pairs (regions : RegDict) : List (Option String × ℚ) :=
  regions.foldl
    (fun top10 p =>
      match p.2.region_score with
      | none => top10
      | some score => FinalReport.top10_step top10 p.1 score)
    (List.replicate 10 ((none : Option String), (0 : ℚ)))

/-- final_report.py `FinalReport.greatest_help`: the region names (or
`None` placeholders) of the leader list. -/
def FinalReport.greatest_help (regions : RegDict) : List (Option String) :=
  (FinalReport.greatest_help_pairs regions).map Prod.fst

/-- final_report.py `FinalReport.largest_co2`: the same top-10 loop keyed
on the 2016 CO₂ emission entry (a dict read, which can raise `KeyError`). -/
def FinalReport.largest_co2 (regions : RegDict) : Except PyError (List (Option String)) := do
  let top10 ← regions.foldlM
    (fun top10 p => do
      let emissions ← agetE p.2.co2_emissions 2016
      match emissions with
      | none => Except.ok top10
      | some e => Except.ok (FinalReport.top10_step top10 p.1 e))
    (List.replicate 10 ((none : Option String), (0 : ℚ)))
  Except.ok (top10.map Prod.fst)

/-- The top-10 fold on an already-extracted list of (name, score)
candidates; both ranking loops reduce to it. -/
def FinalReport.top10_fold (cands : List (String × ℚ)) : List (Option String × ℚ) :=
  cands.foldl (fun t c => FinalReport.top10_step t c.1 c.2)
    (List.replicate 10 ((none : Option String), (0 : ℚ)))

/-- A concrete region for the score examples: renewable output 10 and
emissions 5 for 2016, with a carbon tax. -/
def exampleTaxedRegion : Region :=
  { name := "W",
    has_carbon_tax := true,
    co2_emissions := aset defualt_dict 2016 (some 5),
    renewable_energy := aset defualt_dict 2016 (some 10) }

/-- A concrete region with a present-but-zero 2016 emission value and a
present 2016 renewable value. -/
def exampleZeroEmissionRegion : Region :=
  { name := "X",
    co2_emissions := aset defualt_dict 2016 (some 0),
    renewable_energy := aset defualt_dict 2016 (some 10) }

/-- A concrete region whose gdp is present for 2000 while its population is
present but zero for 2000. -/
def exampleZeroPopRegion : Region :=
  { name := "Y",
    gdp := aset defualt_dict 2000 (some 50),
    population := aset defualt_dict 2000 (some 0) }

/-- Every key stored in the series lies in the analysis window
1951..2016. -/
def InWindowD (d : PyDict) : Prop := ∀ k ∈ akeys d, 1951 ≤ k ∧ k ≤ 2016

/-- The series has an entry (possibly the `None` sentinel) for every year
of the analysis window, so an in-window read never raises `KeyError`. -/
def FullWindowD (d : PyDict) : Prop :=
  ∀ y : Int, 1951 ≤ y → y ≤ 2016 → (aget d y).isSome

/-- All seven metric series of the region cover the whole analysis
window. -/
def FullWindowR (r : Region) : Prop :=
  FullWindowD r.population ∧ FullWindowD r.co2_emissions ∧
  FullWindowD r.co2_emissions_per_capita ∧ FullWindowD r.gdp ∧
  FullWindowD r.gdp_per_capita ∧ FullWindowD r.renewable_energy ∧
  FullWindowD r.renewable_energy_per_capita

/-- The master list for the registry alias example. -/
def exampleMaster : List (String × String) :=
  [("United Kingdom of Great Britain & Northern Ireland", "Europe"),
   ("United States of America", "North America")]

/-- The registry the registry initialiser builds from `exampleMaster`. -/
def exampleRegistry : RegDict :=
  [("United Kingdom",
    { name := "United Kingdom of Great Britain & Northern Ireland",
      continent := some "Europe" }),
   ("United States",
    { name := "United States of America", continent := some "North America" })]

/-- A concrete region whose composite score is present and positive. -/
def exampleSingleScoreRegion : Region :=
  { name := "A", region_score := some 5 }

/-- A concrete region whose composite score is present and negative. -/
def exampleNegativeScoreRegion : Region :=
  { name := "B", region_score := some (-1) }

theorem aget_aset_self {κ α : Type} [DecidableEq κ] (d : List (κ × α)) (k : κ) (v : α) :
    aget (aset d k v) k = some v := by
  induction d with
  | nil => simp [aset, aget]
  | cons p t ih =>
    obtain ⟨pk, pv⟩ := p
    by_cases h : pk = k
    · simp [aset, h, aget]
    · simp [aset, h, aget, ih]

theorem aget_aset_ne {κ α : Type} [DecidableEq κ] (d : List (κ × α)) (k k' : κ) (v : α)
    (h : k' ≠ k) : aget (aset d k v) k' = aget d k' := by
  induction d with
  | nil => simp [aset, aget, Ne.symm h]
  | cons p t ih =>
    obtain ⟨pk, pv⟩ := p
    by_cases hp : pk = k
    · subst hp
      simp [aset, aget, Ne.symm h]
    · by_cases hp' : pk = k'
      · subst hp'
        simp [aset, aget, hp]
      · simp [aset, aget, hp, hp', ih]

theorem aget_mem {κ α : Type} [DecidableEq κ] (d : List (κ × α)) (k : κ) (v : α)
    (h : aget d k = some v) : (k, v) ∈ d := by
  induction d with
  | nil => simp [aget] at h
  | cons p t ih =>
    obtain ⟨pk, pv⟩ := p
    by_cases hp : pk = k
    · subst hp
      have hv : pv = v := by simpa [aget] using h
      subst hv
      exact List.mem_cons_self _ _
    · simp only [aget, if_neg hp] at h
      exact List.mem_cons_of_mem _ (ih h)

theorem mem_aset {κ α : Type} [DecidableEq κ] (d : List (κ × α)) (k : κ) (v : α) (p : κ × α)
    (h : p ∈ aset d k v) : p = (k, v) ∨ p ∈ d := by
  induction d with
  | nil => simpa [aset] using h
  | cons q t ih =>
    obtain ⟨qk, qv⟩ := q
    by_cases hq : qk = k
    · simp only [aset, if_pos hq, List.mem_cons] at h
      rcases h with h | h
      · exact Or.inl h
      · exact Or.inr (List.mem_cons_of_mem _ h)
    · simp only [aset, if_neg hq, List.mem_cons] at h
      rcases h with h | h
      · exact Or.inr (by simp [h])
      · rcases ih h with h | h
        · exact Or.inl h
        · exact Or.inr (List.mem_cons_of_mem _ h)

theorem aget_eq_none_iff {κ α : Type} [DecidableEq κ] (d : List (κ × α)) (k : κ) :
    aget d k = none ↔ k ∉ akeys d := by
  induction d with
  | nil => simp [aget, akeys]
  | cons p t ih =>
    obtain ⟨pk, pv⟩ := p
    by_cases hp : pk = k
    · subst hp
      simp [aget, akeys]
    · simp [aget, hp, akeys, ih, Ne.symm hp]

theorem aget_isSome_iff {κ α : Type} [DecidableEq κ] (d : List (κ × α)) (k : κ) :
    (aget d k).isSome ↔ k ∈ akeys d := by
  rw [Option.isSome_iff_ne_none, ne_eq, aget_eq_none_iff, not_not]

theorem mem_akeys_aset {κ α : Type} [DecidableEq κ] (d : List (κ × α)) (k k' : κ) (v : α)
    (h : k' ∈ akeys (aset d k v)) : k' = k ∨ k' ∈ akeys d := by
  simp only [akeys, List.mem_map] at h
  rcases h with ⟨p, hp, rfl⟩
  rcases mem_aset d k v p hp with h | h
  · simp [h]
  · exact Or.inr (List.mem_map_of_mem Prod.fst h)

theorem akeys_aset_of_mem {κ α : Type} [DecidableEq κ] (d : List (κ × α)) (k : κ) (v : α)
    (h : k ∈ akeys d) : akeys (aset d k v) = akeys d := by
  induction d with
  | nil => simp [akeys] at h
  | cons p t ih =>
    obtain ⟨pk, pv⟩ := p
    by_cases hp : pk = k
    · simp [aset, hp, akeys]
    · simp only [akeys, List.map_cons, List.mem_cons] at h
      rcases h with h | h
      · exact absurd h.symm hp
      · have h2 := ih (by simpa [akeys] using h)
        simp only [akeys] at h2
        simp [aset, hp, akeys, h2]

theorem akeys_aset_of_not_mem {κ α : Type} [DecidableEq κ] (d : List (κ × α)) (k : κ) (v : α)
    (h : k ∉ akeys d) : akeys (aset d k v) = akeys d ++ [k] := by
  induction d with
  | nil => simp [aset, akeys]
  | cons p t ih =>
    obtain ⟨pk, pv⟩ := p
    simp only [akeys, List.map_cons, List.mem_cons] at h
    push_neg at h
    have h2 := ih (by simpa [akeys] using h.2)
    simp only [akeys] at h2
    simp [aset, Ne.symm h.1, akeys, h2]

theorem akeys_nodup_aset {κ α : Type} [DecidableEq κ] (d : List (κ × α)) (k : κ) (v : α)
    (h : (akeys d).Nodup) : (akeys (aset d k v)).Nodup := by
  by_cases hk : k ∈ akeys d
  · rw [akeys_aset_of_mem d k v hk]; exact h
  · rw [akeys_aset_of_not_mem d k v hk]
    simp [List.nodup_append, h, hk]

theorem aget_adel_self {κ α : Type} [DecidableEq κ] (d : List (κ × α)) (k : κ) :
    aget (adel d k) k = none := by
  rw [aget_eq_none_iff]
  intro hmem
  simp only [akeys, List.mem_map, adel, List.mem_filter] at hmem
  rcases hmem with ⟨p, ⟨_, hp⟩, rfl⟩
  simp at hp

theorem adel_cons_self {κ α : Type} [DecidableEq κ] (t : List (κ × α)) (k : κ) (pv : α) :
    adel ((k, pv) :: t) k = adel t k := by
  simp [adel, List.filter_cons]

theorem adel_cons_ne {κ α : Type} [DecidableEq κ] (t : List (κ × α)) (k pk : κ) (pv : α)
    (hp : pk ≠ k) : adel ((pk, pv) :: t) k = (pk, pv) :: adel t k := by
  simp [adel, List.filter_cons, hp]

theorem aget_adel_ne {κ α : Type} [DecidableEq κ] (d : List (κ × α)) (k k' : κ)
    (h : k' ≠ k) : aget (adel d k) k' = aget d k' := by
  induction d with
  | nil => simp [adel]
  | cons p t ih =>
    obtain ⟨pk, pv⟩ := p
    by_cases hp : pk = k
    · subst hp
      rw [adel_cons_self, ih]
      simp [aget, Ne.symm h]
    · rw [adel_cons_ne t k pk pv hp]
      by_cases hp' : pk = k'
      · simp [aget, hp']
      · simp [aget, hp', ih]

theorem mem_akeys_adel {κ α : Type} [DecidableEq κ] (d : List (κ × α)) (k k' : κ) :
    k' ∈ akeys (adel d k) ↔ k' ∈ akeys d ∧ k' ≠ k := by
  simp only [akeys, adel, List.mem_map, List.mem_filter]
  constructor
  · rintro ⟨p, ⟨hp, hne⟩, rfl⟩
    exact ⟨⟨p, hp, rfl⟩, by simpa using hne⟩
  · rintro ⟨⟨p, hp, rfl⟩, hne⟩
    exact ⟨p, ⟨hp, by simpa using hne⟩, rfl⟩

theorem akeys_nodup_adel {κ α : Type} [DecidableEq κ] (d : List (κ × α)) (k : κ)
    (h : (akeys d).Nodup) : (akeys (adel d k)).Nodup := by
  have hsub : List.Sublist (adel d k) d := List.filter_sublist d
  exact List.Nodup.sublist (List.Sublist.map Prod.fst hsub) h

theorem mem_intRange {lo hi y : Int} : y ∈ intRange lo hi ↔ lo ≤ y ∧ y < hi := by
  constructor
  · intro hmem
    rw [intRange] at hmem
    rcases List.mem_map.mp hmem with ⟨i, hir, hEq⟩
    have hilt := List.mem_range.mp hir
    omega
  · intro h
    rw [intRange]
    refine List.mem_map.mpr ⟨(y - lo).toNat, List.mem_range.mpr (by omega), by omega⟩

theorem intRange_cons {lo hi : Int} (h : lo < hi) :
    intRange lo hi = lo :: intRange (lo + 1) hi := by
  have hn : (hi - lo).toNat = (hi - (lo + 1)).toNat + 1 := by omega
  rw [intRange, hn, List.range_succ_eq_map, intRange]
  simp only [List.map_cons, List.map_map]
  congr 1
  · norm_num
  · apply List.map_congr_left
    intro i _
    simp only [Function.comp_apply]
    push_cast
    ring

theorem aget_map_key (L : List Int) (f : Int → Option ℚ) (y : Int) :
    aget (L.map fun z => (z, f z)) y = if y ∈ L then some (f y) else none := by
  induction L with
  | nil => simp [aget]
  | cons z T ih =>
    by_cases h : z = y
    · subst h
      simp [aget]
    · simp only [List.map_cons, aget, if_neg h, ih]
      have hm : (y ∈ z :: T) ↔ (y ∈ T) := by
        simp [List.mem_cons, Ne.symm h]
      rw [if_congr hm rfl rfl]

theorem aget_windowDict (f : Int → Option ℚ) (y : Int) :
    aget (windowDict f) y = if 1951 ≤ y ∧ y ≤ 2016 then some (f y) else none := by
  rw [windowDict, aget_map_key]
  congr 1
  simp only [mem_intRange, eq_iff_iff]
  omega

theorem aget_windowDict_of_window (f : Int → Option ℚ) (y : Int)
    (h1 : 1951 ≤ y) (h2 : y ≤ 2016) : aget (windowDict f) y = some (f y) := by
  rw [aget_windowDict]
  simp [h1, h2]

theorem windowDict_cons (f : Int → Option ℚ) :
    windowDict f = (1951, f 1951) :: (intRange 1952 2017).map (fun y => (y, f y)) := by
  rw [windowDict, intRange_cons (by norm_num), List.map_cons]
  norm_num

theorem foldl_min_le_init (L : PyDict) (m0 : Int) :
    L.foldl (fun m q => min m q.1) m0 ≤ m0 := by
  induction L generalizing m0 with
  | nil => exact le_refl m0
  | cons q t ih => exact le_trans (ih (min m0 q.1)) (min_le_left m0 q.1)

theorem le_foldl_min (L : PyDict) (m0 b : Int) (hb : b ≤ m0)
    (hall : ∀ q ∈ L, b ≤ q.1) : b ≤ L.foldl (fun m q => min m q.1) m0 := by
  induction L generalizing m0 with
  | nil => exact hb
  | cons q t ih =>
    exact ih (min m0 q.1) (le_min hb (hall q (List.mem_cons_self q t)))
      (fun p hp => hall p (List.mem_cons_of_mem q hp))

theorem minKey_windowDict (f : Int → Option ℚ) : minKey (windowDict f) = 1951 := by
  rw [windowDict_cons]
  simp only [minKey]
  refine le_antisymm (foldl_min_le_init _ _) (le_foldl_min _ _ _ (le_refl _) ?_)
  intro q hq
  rcases List.mem_map.mp hq with ⟨y, hy, rfl⟩
  have hy2 := (mem_intRange.mp hy).1
  omega

theorem windowDict_ne_nil (f : Int → Option ℚ) : windowDict f ≠ [] := by
  rw [windowDict_cons]
  simp

/-- C9: on the sample points (1,2), (2,4), (3,6), `linear_regression`
returns slope 2 and intercept 0 exactly, and `strength_of_correlation`
applied to that slope, intercept and those samples returns R² = 1. -/
theorem c9_regression_exact_on_sample :
    Regression.linear_regression [1, 2, 3] [2, 4, 6] = Except.ok ((2 : ℚ), (0 : ℚ)) ∧
    Regression.strength_of_correlation 2 0 [1, 2, 3] [2, 4, 6] = Except.ok (1 : ℚ) := by
  have h3 : List.range 3 = [0, 1, 2] := rfl
  constructor <;>
    norm_num [Regression.linear_regression, Regression.strength_of_correlation,
      Regression.mean, h3, Except.bind, bind]

theorem foldl_add_eq_add_sum {α : Type} (f : α → ℚ) (l : List α) (a : ℚ) :
    l.foldl (fun acc i => acc + f i) a = a + (l.map f).sum := by
  induction l generalizing a with
  | nil => simp
  | cons x t ih => simp [ih, add_assoc]

theorem Regression.mean_const (values : List ℚ) (c : ℚ) (hne : values ≠ [])
    (hall : ∀ v ∈ values, v = c) : Regression.mean values = Except.ok c := by
  have hlen : values.length ≠ 0 := fun h => hne (List.length_eq_zero.mp h)
  rw [Regression.mean, if_neg hlen]
  congr 1
  rw [List.sum_eq_card_nsmul values c hall, nsmul_eq_mul]
  exact mul_div_cancel_left₀ c (Nat.cast_ne_zero.mpr hlen)

theorem Regression.mean_of_ne_nil (values : List ℚ) (hne : values ≠ []) :
    Regression.mean values = Except.ok (values.sum / (values.length : ℚ)) := by
  have hlen : values.length ≠ 0 := fun h => hne (List.length_eq_zero.mp h)
  rw [Regression.mean, if_neg hlen]

theorem Regression.linear_regression_nil (y_values : List ℚ) :
    Regression.linear_regression [] y_values =
      Except.error RegressionError.insufficientData := rfl

theorem Regression.linear_regression_const_x (x_values y_values : List ℚ) (c : ℚ)
    (hne : x_values ≠ []) (hlen : y_values.length = x_values.length)
    (hall : ∀ v ∈ x_values, v = c) :
    Regression.linear_regression x_values y_values =
      Except.error RegressionError.degenerateInput := by
  have hmx := Regression.mean_const x_values c hne hall
  have hyne : y_values ≠ [] := by
    intro h
    subst h
    exact hne (List.length_eq_zero.mp hlen.symm)
  have hmy := Regression.mean_of_ne_nil y_values hyne
  have hden : (List.range x_values.length).foldl
      (fun acc i => acc + (x_values.getD i 0 - c) ^ 2) 0 = 0 := by
    rw [foldl_add_eq_add_sum]
    rw [zero_add]
    apply List.sum_eq_zero
    intro z hz
    rcases List.mem_map.mp hz with ⟨i, hi, rfl⟩
    have hilt := List.mem_range.mp hi
    have hx : x_values.getD i 0 = c := by
      rw [List.getD_eq_getElem x_values 0 hilt]
      exact hall _ (List.getElem_mem hilt)
    rw [hx]
    ring
  simp only [Regression.linear_regression, hmx, hmy, bind, Except.bind, hden]
  simp

theorem Regression.strength_const_y (slope intercept c : ℚ) (x_values y_values : List ℚ)
    (hne : y_values ≠ []) (hall : ∀ v ∈ y_values, v = c) :
    Regression.strength_of_correlation slope intercept x_values y_values =
      Except.error RegressionError.degenerateInput := by
  have hmy := Regression.mean_const y_values c hne hall
  have hstot : (List.range y_values.length).foldl
      (fun acc i => acc + (y_values.getD i 0 - c) ^ 2) 0 = 0 := by
    rw [foldl_add_eq_add_sum]
    rw [zero_add]
    apply List.sum_eq_zero
    intro z hz
    rcases List.mem_map.mp hz with ⟨i, hi, rfl⟩
    have hilt := List.mem_range.mp hi
    have hy : y_values.getD i 0 = c := by
      rw [List.getD_eq_getElem y_values 0 hilt]
      exact hall _ (List.getElem_mem hilt)
    rw [hy]
    ring
  simp only [Regression.strength_of_correlation, hmy, bind, Except.bind, hstot]
  simp

/-- C2: `linear_regression` on zero samples fails with the
`insufficientData` error; `linear_regression` on all-equal x-values fails
with the `degenerateInput` error; `strength_of_correlation` on
all-identical y-values (zero y-variance) fails with the `degenerateInput`
error; each failure is returned to the caller, not absorbed. -/
theorem c2_regression_failures_reported :
    (∀ y_values : List ℚ,
      Regression.linear_regression [] y_values =
        Except.error RegressionError.insufficientData) ∧
    (∀ (x_values y_values : List ℚ) (c : ℚ), x_values ≠ [] →
      y_values.length = x_values.length → (∀ v ∈ x_values, v = c) →
      Regression.linear_regression x_values y_values =
        Except.error RegressionError.degenerateInput) ∧
    (∀ (slope intercept c : ℚ) (x_values y_values : List ℚ), y_values ≠ [] →
      (∀ v ∈ y_values, v = c) →
      Regression.strength_of_correlation slope intercept x_values y_values =
        Except.error RegressionError.degenerateInput) :=
  ⟨Regression.linear_regression_nil,
   Regression.linear_regression_const_x,
   Regression.strength_const_y⟩

/-- Witness for C2 at concrete inputs. -/
theorem c2_regression_failures_reported_witness :
    Regression.linear_regression [] [1] =
      Except.error RegressionError.insufficientData ∧
    (([3, 3] : List ℚ) ≠ [] ∧ ([1, 2] : List ℚ).length = ([3, 3] : List ℚ).length ∧
      (∀ v ∈ ([3, 3] : List ℚ), v = 3)) ∧
    Regression.linear_regression [3, 3] [1, 2] =
      Except.error RegressionError.degenerateInput ∧
    (([5, 5] : List ℚ) ≠ [] ∧ (∀ v ∈ ([5, 5] : List ℚ), v = 5)) ∧
    Regression.strength_of_correlation 1 0 [1, 2] [5, 5] =
      Except.error RegressionError.degenerateInput :=
  ⟨c2_regression_failures_reported.1 [1],
   ⟨by simp, by simp, by simp⟩,
   c2_regression_failures_reported.2.1 [3, 3] [1, 2] 3 (by simp) (by simp)
     (by simp),
   ⟨by simp, by simp⟩,
   c2_regression_failures_reported.2.2 1 0 5 [1, 2] [5, 5] (by simp) (by simp)⟩

theorem DataSet.initialise_region_score_singleton (name : String) (r : Region) :
    DataSet.initialise_region_score [(name, r)] =
      (DataSet.initialise_region_score_region r).map (fun r2 => [(name, r2)]) := by
  cases h : DataSet.initialise_region_score_region r <;>
    simp [DataSet.initialise_region_score, List.mapM, List.mapM.loop, h, bind,
      Except.bind, Except.map, pure, Except.pure]

theorem DataSet.initialise_region_score_region_eq (region : Region) (rv ev : Option ℚ)
    (hr : aget region.renewable_energy 2016 = some rv)
    (he : aget region.co2_emissions 2016 = some ev) :
    DataSet.initialise_region_score_region region =
      match rv, ev with
      | some r, some e =>
        if e = 0 then Except.error PyError.zeroDivisionError
        else
          Except.ok
            { region with
                region_score :=
                  some (if region.has_carbon_tax then r / e * 10 else r / e) }
      | _, _ => Except.ok region := by
  have h1 : agetE region.renewable_energy 2016 = Except.ok rv := by simp [agetE, hr]
  have h2 : agetE region.co2_emissions 2016 = Except.ok ev := by simp [agetE, he]
  cases rv <;> cases ev <;>
    simp [DataSet.initialise_region_score_region, h1, h2, bind, Except.bind]

/-- C1 counterexample: with a present 2016 renewable value and a present
2016 emission value equal to zero, score initialisation raises
`ZeroDivisionError` instead of leaving the score absent. -/
theorem c1_zero_emission_counterexample :
    DataSet.initialise_region_score [("X", exampleZeroEmissionRegion)] =
      Except.error PyError.zeroDivisionError := by rfl

/-- C1 (amended): after initialisation a region's score equals
`renewable_energy[2016] / co2_emissions[2016]`, multiplied by 10 when the
region has a carbon tax; it stays absent when either 2016 entry is the
`None` sentinel; but when both entries are present and the emission value
is zero, initialisation raises `ZeroDivisionError` rather than leaving the
score absent. -/
theorem c1_region_score_amended (region : Region) (rv ev : Option ℚ)
    (hr : aget region.renewable_energy 2016 = some rv)
    (he : aget region.co2_emissions 2016 = some ev) :
    ((rv = none ∨ ev = none) →
      DataSet.initialise_region_score_region region = Except.ok region) ∧
    (∀ r e : ℚ, rv = some r → ev = some e → e ≠ 0 →
      DataSet.initialise_region_score_region region =
        Except.ok
          { region with
              region_score :=
                some (if region.has_carbon_tax then r / e * 10 else r / e) }) ∧
    (∀ r : ℚ, rv = some r → ev = some 0 →
      DataSet.initialise_region_score_region region =
        Except.error PyError.zeroDivisionError) ∧
    (∀ name : String,
      DataSet.initialise_region_score [(name, region)] =
        (DataSet.initialise_region_score_region region).map (fun r2 => [(name, r2)])) := by
  have hcore := DataSet.initialise_region_score_region_eq region rv ev hr he
  refine ⟨?_, ?_, ?_, fun name => DataSet.initialise_region_score_singleton name region⟩
  · rintro (hcase | hcase)
    · subst hcase
      rw [hcore]
    · subst hcase
      rw [hcore]
      cases rv <;> rfl
  · intro r e hrv hev hne
    subst hrv
    subst hev
    rw [hcore]
    simp [hne]
  · intro r hrv hev
    subst hrv
    subst hev
    rw [hcore]
    simp

/-- Witness for C1 (amended) at the taxed example region: renewable 10,
emissions 5, carbon tax, giving score (10 / 5) * 10 = 20. -/
theorem c1_region_score_amended_witness :
    aget exampleTaxedRegion.renewable_energy 2016 = some (some 10) ∧
    aget exampleTaxedRegion.co2_emissions 2016 = some (some 5) ∧
    DataSet.initialise_region_score_region exampleTaxedRegion =
      Except.ok { exampleTaxedRegion with region_score := some 20 } := by
  refine ⟨rfl, rfl, ?_⟩
  have h := (c1_region_score_amended exampleTaxedRegion (some 10) (some 5) rfl rfl).2.1
    10 5 rfl rfl (by norm_num)
  rw [h]
  norm_num [exampleTaxedRegion]

theorem except_mapM_singleton {α β ε : Type} (F : α → Except ε β) (x : α) :
    List.mapM F [x] = (F x).map (fun y => [y]) := by
  cases h : F x <;>
    simp [List.mapM, List.mapM.loop, h, bind, Except.bind, Except.map, pure, Except.pure]

theorem DataSet.per_capita_step_eq (base pop : PyDict) (f g : Int → Option ℚ) (d : PyDict)
    (y : Int) (hb : aget base y = some (f y)) (hp : aget pop y = some (g y)) :
    DataSet.per_capita_step base pop d y =
      match f y with
      | none => Except.ok d
      | some bv =>
        match g y with
        | none => Except.ok d
        | some pv =>
          if pv = 0 then Except.error PyError.zeroDivisionError
          else Except.ok (aset d y (some (bv / pv))) := by
  have h1 : agetE base y = Except.ok (f y) := by simp [agetE, hb]
  have h2 : agetE pop y = Except.ok (g y) := by simp [agetE, hp]
  cases hfy : f y <;> cases hgy : g y <;>
    simp [DataSet.per_capita_step, h1, h2, hfy, hgy, bind, Except.bind]

theorem per_capita_loop_error (base pop : PyDict) (f g : Int → Option ℚ) (L : List Int)
    (hreads : ∀ y ∈ L, aget base y = some (f y) ∧ aget pop y = some (g y))
    (hoff : ∃ y ∈ L, (f y).isSome ∧ g y = some 0) (d : PyDict) :
    L.foldlM (DataSet.per_capita_step base pop) d =
      Except.error PyError.zeroDivisionError := by
  induction L generalizing d with
  | nil =>
    rcases hoff with ⟨y, hy, _⟩
    exact absurd hy (List.not_mem_nil y)
  | cons y0 T ih =>
    have hr0 := hreads y0 (List.mem_cons_self y0 T)
    have hs := DataSet.per_capita_step_eq base pop f g d y0 hr0.1 hr0.2
    have hreadsT : ∀ y ∈ T, aget base y = some (f y) ∧ aget pop y = some (g y) :=
      fun y hy => hreads y (List.mem_cons_of_mem y0 hy)
    cases hfy : f y0 with
    | none =>
      rw [hfy] at hs
      have hoffT : ∃ y ∈ T, (f y).isSome ∧ g y = some 0 := by
        rcases hoff with ⟨y, hy, hys, hyz⟩
        rcases List.mem_cons.mp hy with rfl | hyT
        · rw [hfy] at hys
          simp at hys
        · exact ⟨y, hyT, hys, hyz⟩
      rw [List.foldlM_cons, hs]
      simp only [bind, Except.bind]
      exact ih hreadsT hoffT d
    | some bv =>
      cases hgy : g y0 with
      | none =>
        rw [hfy, hgy] at hs
        have hoffT : ∃ y ∈ T, (f y).isSome ∧ g y = some 0 := by
          rcases hoff with ⟨y, hy, hys, hyz⟩
          rcases List.mem_cons.mp hy with rfl | hyT
          · rw [hgy] at hyz
            simp at hyz
          · exact ⟨y, hyT, hys, hyz⟩
        rw [List.foldlM_cons, hs]
        simp only [bind, Except.bind]
        exact ih hreadsT hoffT d
      | some pv =>
        rw [hfy, hgy] at hs
        by_cases hz : pv = 0
        · subst hz
          have hs2 : DataSet.per_capita_step base pop d y0 =
              Except.error PyError.zeroDivisionError := by
            rw [hs]
            exact if_pos rfl
          rw [List.foldlM_cons, hs2]
          simp [bind, Except.bind]
        · have hs2 : DataSet.per_capita_step base pop d y0 =
              Except.ok (aset d y0 (some (bv / pv))) := by
            rw [hs]
            exact if_neg hz
          have hoffT : ∃ y ∈ T, (f y).isSome ∧ g y = some 0 := by
            rcases hoff with ⟨y, hy, hys, hyz⟩
            rcases List.mem_cons.mp hy with rfl | hyT
            · rw [hgy] at hyz
              simp only [Option.some_inj] at hyz
              exact absurd hyz hz
            · exact ⟨y, hyT, hys, hyz⟩
          rw [List.foldlM_cons, hs2]
          simp only [bind, Except.bind]
          exact ih hreadsT hoffT _

theorem per_capita_loop_ok (base pop : PyDict) (f g : Int → Option ℚ) (L : List Int)
    (hreads : ∀ y ∈ L, aget base y = some (f y) ∧ aget pop y = some (g y))
    (hnz : ∀ y ∈ L, (f y).isSome → g y ≠ some 0) (d : PyDict) :
    ∃ d2, L.foldlM (DataSet.per_capita_step base pop) d = Except.ok d2 ∧
      (∀ y, y ∉ L → aget d2 y = aget d y) ∧
      (∀ y ∈ L, aget d2 y =
        match f y, g y with
        | some bv, some pv => some (some (bv / pv))
        | _, _ => aget d y) := by
  induction L generalizing d with
  | nil =>
    exact ⟨d, rfl, fun y _ => rfl, fun y hy => absurd hy (List.not_mem_nil y)⟩
  | cons y0 T ih =>
    have hr0 := hreads y0 (List.mem_cons_self y0 T)
    have hs := DataSet.per_capita_step_eq base pop f g d y0 hr0.1 hr0.2
    have hreadsT : ∀ y ∈ T, aget base y = some (f y) ∧ aget pop y = some (g y) :=
      fun y hy => hreads y (List.mem_cons_of_mem y0 hy)
    have hnzT : ∀ y ∈ T, (f y).isSome → g y ≠ some 0 :=
      fun y hy => hnz y (List.mem_cons_of_mem y0 hy)
    cases hfy : f y0 with
    | none =>
      rw [hfy] at hs
      obtain ⟨d2, hok, hout, hin⟩ := ih hreadsT hnzT d
      refine ⟨d2, ?_, ?_, ?_⟩
      · rw [List.foldlM_cons, hs]
        simp only [bind, Except.bind]
        exact hok
      · intro y hy
        exact hout y (fun hyT => hy (List.mem_cons_of_mem y0 hyT))
      · intro y hy
        rcases List.mem_cons.mp hy with rfl | hyT
        · rw [hfy]
          by_cases hyT : y ∈ T
          · have hval := hin y hyT
            rw [hfy] at hval
            exact hval
          · exact hout y hyT
        · exact hin y hyT
    | some bv =>
      cases hgy : g y0 with
      | none =>
        rw [hfy, hgy] at hs
        obtain ⟨d2, hok, hout, hin⟩ := ih hreadsT hnzT d
        refine ⟨d2, ?_, ?_, ?_⟩
        · rw [List.foldlM_cons, hs]
          simp only [bind, Except.bind]
          exact hok
        · intro y hy
          exact hout y (fun hyT => hy (List.mem_cons_of_mem y0 hyT))
        · intro y hy
          rcases List.mem_cons.mp hy with rfl | hyT
          · rw [hfy, hgy]
            by_cases hyT : y ∈ T
            · have hval := hin y hyT
              rw [hfy, hgy] at hval
              exact hval
            · exact hout y hyT
          · exact hin y hyT
      | some pv =>
        rw [hfy, hgy] at hs
        have hz : pv ≠ 0 := by
          intro hcon
          subst hcon
          exact hnz y0 (List.mem_cons_self y0 T) (by simp [hfy]) hgy
        have hs2 : DataSet.per_capita_step base pop d y0 =
            Except.ok (aset d y0 (some (bv / pv))) := by
          rw [hs]
          exact if_neg hz
        obtain ⟨d2, hok, hout, hin⟩ := ih hreadsT hnzT (aset d y0 (some (bv / pv)))
        refine ⟨d2, ?_, ?_, ?_⟩
        · rw [List.foldlM_cons, hs2]
          simp only [bind, Except.bind]
          exact hok
        · intro y hy
          have hy0 : y ≠ y0 := fun e => hy (e ▸ List.mem_cons_self y0 T)
          rw [hout y (fun hyT => hy (List.mem_cons_of_mem y0 hyT))]
          exact aget_aset_ne d y0 y (some (bv / pv)) hy0
        · intro y hy
          rcases List.mem_cons.mp hy with rfl | hyT
          · rw [hfy, hgy]
            by_cases hyT : y ∈ T
            · have hval := hin y hyT
              rw [hfy, hgy] at hval
              exact hval
            · rw [hout y hyT]
              exact aget_aset_self d y (some (bv / pv))
          · have hval := hin y hyT
            by_cases hy0 : y = y0
            · subst hy0
              rw [hfy, hgy] at hval
              rw [hval, hfy, hgy]
            · cases hfy2 : f y with
              | none =>
                rw [hfy2] at hval
                rw [hval]
                exact aget_aset_ne d y0 y (some (bv / pv)) hy0
              | some bv2 =>
                cases hgy2 : g y with
                | none =>
                  rw [hfy2, hgy2] at hval
                  rw [hval]
                  exact aget_aset_ne d y0 y (some (bv / pv)) hy0
                | some pv2 =>
                  rw [hfy2, hgy2] at hval
                  rw [hval]

theorem windowDict_reads (f2 : Int → Option ℚ) :
    ∀ y ∈ intRange 1951 2017, aget (windowDict f2) y = some (f2 y) := by
  intro y hy
  have hb := mem_intRange.mp hy
  exact aget_windowDict_of_window f2 y hb.1 (by omega)

theorem DataSet.per_capita_update_windowDict_error (f g : Int → Option ℚ) (derived : PyDict)
    (hoff : ∃ y, 1951 ≤ y ∧ y ≤ 2016 ∧ (f y).isSome ∧ g y = some 0) :
    DataSet.per_capita_update (windowDict f) (windowDict g) derived =
      Except.error PyError.zeroDivisionError := by
  rw [DataSet.per_capita_update,
    if_neg (by simp [windowDict_ne_nil f, windowDict_ne_nil g])]
  simp only [minKey_windowDict, max_self]
  apply per_capita_loop_error (windowDict f) (windowDict g) f g
  · intro y hy
    exact ⟨windowDict_reads f y hy, windowDict_reads g y hy⟩
  · rcases hoff with ⟨y, h1, h2, h3, h4⟩
    exact ⟨y, mem_intRange.mpr ⟨h1, by omega⟩, h3, h4⟩

theorem DataSet.per_capita_update_windowDict_ok (f g h : Int → Option ℚ)
    (hnz : ∀ y, 1951 ≤ y → y ≤ 2016 → (f y).isSome → g y ≠ some 0) :
    ∃ d2,
      DataSet.per_capita_update (windowDict f) (windowDict g) (windowDict h) =
        Except.ok d2 ∧
      ∀ y, 1951 ≤ y → y ≤ 2016 →
        aget d2 y =
          some (match f y, g y with
            | some bv, some pv => some (bv / pv)
            | _, _ => h y) := by
  rw [DataSet.per_capita_update,
    if_neg (by simp [windowDict_ne_nil f, windowDict_ne_nil g])]
  simp only [minKey_windowDict, max_self]
  obtain ⟨d2, hok, hout, hin⟩ :=
    per_capita_loop_ok (windowDict f) (windowDict g) f g (intRange 1951 2017)
      (fun y hy => ⟨windowDict_reads f y hy, windowDict_reads g y hy⟩)
      (fun y hy => hnz y (mem_intRange.mp hy).1 (by have := (mem_intRange.mp hy).2; omega))
      (windowDict h)
  refine ⟨d2, hok, ?_⟩
  intro y h1 h2
  have hy : y ∈ intRange 1951 2017 := mem_intRange.mpr ⟨h1, by omega⟩
  have hval := hin y hy
  have hwin : aget (windowDict h) y = some (h y) := aget_windowDict_of_window h y h1 h2
  cases hfy : f y with
  | none =>
    rw [hfy] at hval
    rw [hval, hwin]
  | some bv =>
    cases hgy : g y with
    | none =>
      rw [hfy, hgy] at hval
      rw [hval, hwin]
    | some pv =>
      rw [hfy, hgy] at hval
      rw [hval]

theorem intRange_nodup (lo hi : Int) : (intRange lo hi).Nodup := by
  refine List.Nodup.map ?_ (List.nodup_range _)
  intro a b hab
  have h2 : (a : Int) = (b : Int) := by simpa using hab
  exact_mod_cast h2

theorem aset_map_key (L : List Int) (hnd : L.Nodup) (f : Int → Option ℚ) (k : Int)
    (hk : k ∈ L) (v : Option ℚ) :
    aset (L.map fun z => (z, f z)) k v =
      L.map fun z => (z, if z = k then v else f z) := by
  induction L with
  | nil => cases hk
  | cons z T ih =>
    by_cases hz : z = k
    · subst hz
      have hkT : z ∉ T := (List.nodup_cons.mp hnd).1
      simp only [List.map_cons, aset, if_pos rfl, if_pos trivial]
      congr 1
      apply List.map_congr_left
      intro z2 hz2
      have : z2 ≠ z := fun e => hkT (e ▸ hz2)
      simp [this]
    · have hkT : k ∈ T := by
        rcases List.mem_cons.mp hk with rfl | hkT
        · exact absurd rfl hz
        · exact hkT
      simp only [List.map_cons, aset, if_neg hz, if_neg hz,
        ih (List.nodup_cons.mp hnd).2 hkT]

theorem aset_windowDict (f : Int → Option ℚ) (k : Int) (v : Option ℚ)
    (h1 : 1951 ≤ k) (h2 : k ≤ 2016) :
    aset (windowDict f) k v = windowDict (fun y => if y = k then v else f y) := by
  rw [windowDict, windowDict,
    aset_map_key (intRange 1951 2017) (intRange_nodup 1951 2017) f k
      (mem_intRange.mpr ⟨h1, by omega⟩) v]

theorem exampleZeroPopRegion_gdp :
    exampleZeroPopRegion.gdp = windowDict (fun y => if y = 2000 then some 50 else none) := by
  show aset defualt_dict 2000 (some 50) = _
  rw [defualt_dict, aset_windowDict (fun _ => none) 2000 (some 50) (by norm_num) (by norm_num)]

theorem exampleZeroPopRegion_population :
    exampleZeroPopRegion.population =
      windowDict (fun y => if y = 2000 then some 0 else none) := by
  show aset defualt_dict 2000 (some 0) = _
  rw [defualt_dict, aset_windowDict (fun _ => none) 2000 (some 0) (by norm_num) (by norm_num)]

/-- C5 counterexample: a region whose 2000 gdp value is present (50) while
its 2000 population value is present but zero makes the gdp-per-capita
pass raise `ZeroDivisionError` instead of leaving the derived entry
absent. -/
theorem c5_zero_population_counterexample :
    DataSet.initialise_gdp_per_capita [("Y", exampleZeroPopRegion)] =
      Except.error PyError.zeroDivisionError := by
  have hcore := DataSet.per_capita_update_windowDict_error
    (fun y => if y = 2000 then some 50 else none)
    (fun y => if y = 2000 then some 0 else none)
    exampleZeroPopRegion.gdp_per_capita
    ⟨2000, by norm_num, by norm_num, by simp, by simp⟩
  simp only [DataSet.initialise_gdp_per_capita, except_mapM_singleton,
    exampleZeroPopRegion_gdp, exampleZeroPopRegion_population, hcore, bind,
    Except.bind, Except.map]

/-- C5 (amended): in each of the three per-capita derivations, a year in
the analysis window whose base value is present while the population value
is present but zero makes the pass raise `ZeroDivisionError` instead of
leaving the derived entry for that year absent. -/
theorem c5_per_capita_zero_population_raises (f g : Int → Option ℚ)
    (hoff : ∃ y, 1951 ≤ y ∧ y ≤ 2016 ∧ (f y).isSome ∧ g y = some 0) :
    (∀ derived : PyDict,
      DataSet.per_capita_update (windowDict f) (windowDict g) derived =
        Except.error PyError.zeroDivisionError) ∧
    (∀ (name : String) (r : Region),
      r.gdp = windowDict f → r.population = windowDict g →
      DataSet.initialise_gdp_per_capita [(name, r)] =
        Except.error PyError.zeroDivisionError) ∧
    (∀ (name : String) (r : Region),
      r.co2_emissions = windowDict f → r.population = windowDict g →
      DataSet.initialise_co2_emissions_per_capita [(name, r)] =
        Except.error PyError.zeroDivisionError) ∧
    (∀ (name : String) (r : Region),
      r.renewable_energy = windowDict f → r.population = windowDict g →
      DataSet.initialise_renewables_per_capita [(name, r)] =
        Except.error PyError.zeroDivisionError) := by
  have hcore := DataSet.per_capita_update_windowDict_error f g
  refine ⟨fun derived => hcore derived hoff, ?_, ?_, ?_⟩
  · intro name r h1 h2
    simp only [DataSet.initialise_gdp_per_capita, except_mapM_singleton, h1, h2,
      hcore r.gdp_per_capita hoff, bind, Except.bind, Except.map]
  · intro name r h1 h2
    simp only [DataSet.initialise_co2_emissions_per_capita, except_mapM_singleton, h1, h2,
      hcore r.co2_emissions_per_capita hoff, bind, Except.bind, Except.map]
  · intro name r h1 h2
    simp only [DataSet.initialise_renewables_per_capita, except_mapM_singleton, h1, h2,
      hcore r.renewable_energy_per_capita hoff, bind, Except.bind, Except.map]

/-- Witness for C5 (amended): the offending year 2000 with base 50 and
population 0 makes the shared per-capita pass fail on a default derived
series. -/
theorem c5_per_capita_zero_population_raises_witness :
    (∃ y, 1951 ≤ y ∧ y ≤ 2016 ∧
      ((fun y => if y = 2000 then some (50 : ℚ) else none) y).isSome ∧
      (fun y => if y = 2000 then some (0 : ℚ) else none) y = some 0) ∧
    DataSet.per_capita_update
      (windowDict (fun y => if y = 2000 then some 50 else none))
      (windowDict (fun y => if y = 2000 then some 0 else none))
      defualt_dict = Except.error PyError.zeroDivisionError := by
  refine ⟨⟨2000, by norm_num, by norm_num, by simp, by simp⟩, ?_⟩
  exact (c5_per_capita_zero_population_raises
    (fun y => if y = 2000 then some 50 else none)
    (fun y => if y = 2000 then some 0 else none)
    ⟨2000, by norm_num, by norm_num, by simp, by simp⟩).1 defualt_dict

/-- C6: over window-shaped series (with no present-base, zero-population
year), the derived per-capita entry for an in-window year equals
base/population when both are present that year and keeps the prior
(absent) value otherwise; the gdp and CO₂ passes apply exactly this update
to the region's series. -/
theorem c6_per_capita_pointwise (f g h : Int → Option ℚ)
    (hnz : ∀ y, 1951 ≤ y → y ≤ 2016 → (f y).isSome → g y ≠ some 0) :
    ∃ d2,
      DataSet.per_capita_update (windowDict f) (windowDict g) (windowDict h) =
        Except.ok d2 ∧
      (∀ y, 1951 ≤ y → y ≤ 2016 →
        aget d2 y =
          some (match f y, g y with
            | some bv, some pv => some (bv / pv)
            | _, _ => h y)) ∧
      (∀ (name : String) (r : Region),
        r.gdp = windowDict f → r.population = windowDict g →
        r.gdp_per_capita = windowDict h →
        DataSet.initialise_gdp_per_capita [(name, r)] =
          Except.ok [(name, { r with gdp_per_capita := d2 })]) ∧
      (∀ (name : String) (r : Region),
        r.co2_emissions = windowDict f → r.population = windowDict g →
        r.co2_emissions_per_capita = windowDict h →
        DataSet.initialise_co2_emissions_per_capita [(name, r)] =
          Except.ok [(name, { r with co2_emissions_per_capita := d2 })]) := by
  obtain ⟨d2, hok, hval⟩ := DataSet.per_capita_update_windowDict_ok f g h hnz
  refine ⟨d2, hok, hval, ?_, ?_⟩
  · intro name r h1 h2 h3
    simp only [DataSet.initialise_gdp_per_capita, except_mapM_singleton, h1, h2, h3,
      hok, bind, Except.bind, Except.map, pure, Except.pure]
  · intro name r h1 h2 h3
    simp only [DataSet.initialise_co2_emissions_per_capita, except_mapM_singleton,
      h1, h2, h3, hok, bind, Except.bind, Except.map, pure, Except.pure]

/-- Witness for C6 at the spec's example: population {2000: 100, 2001: 200}
and emissions {2000: 50} derive {2000: 1/2} with 2001 left absent. -/
theorem c6_per_capita_pointwise_witness :
    ∃ d2,
      DataSet.per_capita_update
        (windowDict (fun y => if y = 2000 then some 50 else none))
        (windowDict (fun y => if y = 2000 then some 100
          else if y = 2001 then some 200 else none))
        (windowDict (fun _ => none)) = Except.ok d2 ∧
      aget d2 2000 = some (some (1 / 2)) ∧
      aget d2 2001 = some none := by
  obtain ⟨d2, hok, hval, _, _⟩ := c6_per_capita_pointwise
    (fun y => if y = 2000 then some 50 else none)
    (fun y => if y = 2000 then some 100 else if y = 2001 then some 200 else none)
    (fun _ => none)
    (by
      intro y hy1 hy2 hs
      by_cases hy : y = 2000
      · subst hy
        simp
      · simp [hy] at hs)
  refine ⟨d2, hok, ?_, ?_⟩
  · have h2000 := hval 2000 (by norm_num) (by norm_num)
    simp only [if_pos rfl] at h2000
    rw [h2000]
    norm_num
  · have h2001 := hval 2001 (by norm_num) (by norm_num)
    norm_num at h2001
    exact h2001

theorem InWindowD_aset (d : PyDict) (k : Int) (v : Option ℚ) (h : InWindowD d)
    (h1 : 1951 ≤ k) (h2 : k ≤ 2016) : InWindowD (aset d k v) := by
  intro k2 hk2
  rcases mem_akeys_aset d k k2 v hk2 with rfl | hk2
  · exact ⟨h1, h2⟩
  · exact h k2 hk2

theorem FullWindowD_aset (d : PyDict) (k : Int) (v : Option ℚ) (h : FullWindowD d) :
    FullWindowD (aset d k v) := by
  intro y h1 h2
  by_cases hy : y = k
  · subst hy
    rw [aget_aset_self]
    rfl
  · rw [aget_aset_ne d k y v hy]
    exact h y h1 h2

theorem FullWindowD_defualt_dict : FullWindowD defualt_dict := by
  intro y h1 h2
  rw [defualt_dict, aget_windowDict_of_window (fun _ => none) y h1 h2]
  rfl

theorem InWindowD_co2_update (data : List CO2Line) (d : PyDict) (h : InWindowD d) :
    InWindowD (DataSet.co2_update data d) := by
  induction data generalizing d with
  | nil => exact h
  | cons line rest ih =>
    simp only [DataSet.co2_update, List.foldl_cons]
    by_cases hc : 1951 ≤ line.year ∧ line.year ≤ 2016 ∧ (line.co2).isSome
    · rw [if_pos hc]
      exact ih (aset d line.year line.co2) (InWindowD_aset d line.year line.co2 h hc.1 hc.2.1)
    · rw [if_neg hc]
      exact ih d h

theorem FullWindowD_co2_update (data : List CO2Line) (d : PyDict) (h : FullWindowD d) :
    FullWindowD (DataSet.co2_update data d) := by
  induction data generalizing d with
  | nil => exact h
  | cons line rest ih =>
    simp only [DataSet.co2_update, List.foldl_cons]
    by_cases hc : 1951 ≤ line.year ∧ line.year ≤ 2016 ∧ (line.co2).isSome
    · rw [if_pos hc]
      exact ih (aset d line.year line.co2) (FullWindowD_aset d line.year line.co2 h)
    · rw [if_neg hc]
      exact ih d h

theorem co2_update_out_of_window (data : List CO2Line) (d : PyDict) (y : Int)
    (hy : ¬(1951 ≤ y ∧ y ≤ 2016)) :
    aget (DataSet.co2_update data d) y = aget d y := by
  induction data generalizing d with
  | nil => rfl
  | cons line rest ih =>
    simp only [DataSet.co2_update, List.foldl_cons]
    by_cases hc : 1951 ≤ line.year ∧ line.year ≤ 2016 ∧ (line.co2).isSome
    · rw [if_pos hc]
      have hne : y ≠ line.year := by
        intro e
        exact hy (e ▸ ⟨hc.1, hc.2.1⟩)
      have hstep := ih (aset d line.year line.co2)
      simp only [DataSet.co2_update] at hstep
      rw [hstep, aget_aset_ne d line.year y line.co2 hne]
    · rw [if_neg hc]
      exact ih d

theorem renewable_loop_in_window (amounts : Int → Option ℚ) (L : List Int)
    (hL : ∀ i ∈ L, 1951 ≤ 1997 + i ∧ 1997 + i ≤ 2016) (d : PyDict) (h : InWindowD d) :
    InWindowD (L.foldl
      (fun d i =>
        match amounts i with
        | none => d
        | some amt => aset d (1997 + i) (some amt)) d) := by
  induction L generalizing d with
  | nil => exact h
  | cons i rest ih =>
    rw [List.foldl_cons]
    have hi := hL i (List.mem_cons_self i rest)
    have hLr : ∀ j ∈ rest, 1951 ≤ 1997 + j ∧ 1997 + j ≤ 2016 :=
      fun j hj => hL j (List.mem_cons_of_mem i hj)
    cases hai : amounts i with
    | none => exact ih hLr d h
    | some amt =>
      exact ih hLr (aset d (1997 + i) (some amt))
        (InWindowD_aset d (1997 + i) (some amt) h hi.1 hi.2)

theorem renewable_loop_full_window (amounts : Int → Option ℚ) (L : List Int)
    (d : PyDict) (h : FullWindowD d) :
    FullWindowD (L.foldl
      (fun d i =>
        match amounts i with
        | none => d
        | some amt => aset d (1997 + i) (some amt)) d) := by
  induction L generalizing d with
  | nil => exact h
  | cons i rest ih =>
    rw [List.foldl_cons]
    cases hai : amounts i with
    | none => exact ih d h
    | some amt => exact ih (aset d (1997 + i) (some amt)) (FullWindowD_aset _ _ _ h)

theorem renewable_loop_out_of_window (amounts : Int → Option ℚ) (L : List Int)
    (hL : ∀ i ∈ L, 1951 ≤ 1997 + i ∧ 1997 + i ≤ 2016) (d : PyDict) (y : Int)
    (hy : ¬(1951 ≤ y ∧ y ≤ 2016)) :
    aget (L.foldl
      (fun d i =>
        match amounts i with
        | none => d
        | some amt => aset d (1997 + i) (some amt)) d) y = aget d y := by
  induction L generalizing d with
  | nil => rfl
  | cons i rest ih =>
    rw [List.foldl_cons]
    have hi := hL i (List.mem_cons_self i rest)
    have hLr : ∀ j ∈ rest, 1951 ≤ 1997 + j ∧ 1997 + j ≤ 2016 :=
      fun j hj => hL j (List.mem_cons_of_mem i hj)
    cases hai : amounts i with
    | none => exact ih hLr d
    | some amt =>
      have hne : y ≠ 1997 + i := by
        intro e
        exact hy (e ▸ hi)
      rw [ih hLr (aset d (1997 + i) (some amt)),
        aget_aset_ne d (1997 + i) y (some amt) hne]

theorem intRange_3_20_window : ∀ i ∈ intRange 3 20, 1951 ≤ 1997 + i ∧ 1997 + i ≤ 2016 := by
  intro i hi
  have := mem_intRange.mp hi
  omega

theorem InWindowD_renewable_update (amounts : Int → Option ℚ) (d : PyDict)
    (h : InWindowD d) : InWindowD (DataSet.renewable_update amounts d) :=
  renewable_loop_in_window amounts (intRange 3 20) intRange_3_20_window d h

theorem FullWindowD_renewable_update (amounts : Int → Option ℚ) (d : PyDict)
    (h : FullWindowD d) : FullWindowD (DataSet.renewable_update amounts d) :=
  renewable_loop_full_window amounts (intRange 3 20) d h

theorem renewable_update_out_of_window (amounts : Int → Option ℚ) (d : PyDict) (y : Int)
    (hy : ¬(1951 ≤ y ∧ y ≤ 2016)) :
    aget (DataSet.renewable_update amounts d) y = aget d y :=
  renewable_loop_out_of_window amounts (intRange 3 20) intRange_3_20_window d y hy

theorem energy_production_preserves (P : Region → Prop)
    (hstep : ∀ (amounts : Int → Option ℚ) (r : Region), P r →
      P { r with renewable_energy := DataSet.renewable_update amounts r.renewable_energy })
    (rows : List EnergyRow) (regs : RegDict) (hall : ∀ p ∈ regs, P p.2) :
    ∀ p2 ∈ DataSet.energy_production rows regs, P p2.2 := by
  induction rows generalizing regs with
  | nil => exact hall
  | cons row rest ih =>
    intro p2 hp2
    simp only [DataSet.energy_production, List.foldl_cons] at hp2
    cases hg : aget regs (if row.region = "USA" then "United States"
        else if row.region = "UK" then "United Kingdom" else row.region) with
    | none =>
      rw [hg] at hp2
      exact ih regs hall p2 hp2
    | some r =>
      rw [hg] at hp2
      refine ih _ ?_ p2 hp2
      intro p hp
      rcases mem_aset _ _ _ p hp with rfl | hp
      · exact hstep row.amounts r (hall _ (aget_mem _ _ _ hg))
      · exact hall p hp

/-- C8: the merge passes keep every stored year key of the affected series
inside the analysis window 1951..2016, and never write at an out-of-window
year, so raw records with out-of-window years are discarded; this holds for
the per-series update bodies and across the whole registry for the CO₂ and
renewable-energy passes. -/
theorem c8_window_closure :
    (∀ (data : List CO2Line) (d : PyDict), InWindowD d →
      InWindowD (DataSet.co2_update data d)) ∧
    (∀ (data : List CO2Line) (d : PyDict) (y : Int), ¬(1951 ≤ y ∧ y ≤ 2016) →
      aget (DataSet.co2_update data d) y = aget d y) ∧
    (∀ (amounts : Int → Option ℚ) (d : PyDict), InWindowD d →
      InWindowD (DataSet.renewable_update amounts d)) ∧
    (∀ (amounts : Int → Option ℚ) (d : PyDict) (y : Int), ¬(1951 ≤ y ∧ y ≤ 2016) →
      aget (DataSet.renewable_update amounts d) y = aget d y) ∧
    (∀ (ds : String → Option (List CO2Line)) (regs : RegDict),
      (∀ p ∈ regs, InWindowD p.2.co2_emissions) →
      ∀ p2 ∈ DataSet.initialise_co2_emissions ds regs, InWindowD p2.2.co2_emissions) ∧
    (∀ (rows : List EnergyRow) (regs : RegDict),
      (∀ p ∈ regs, InWindowD p.2.renewable_energy) →
      ∀ p2 ∈ DataSet.energy_production rows regs, InWindowD p2.2.renewable_energy) := by
  refine ⟨InWindowD_co2_update, co2_update_out_of_window, InWindowD_renewable_update,
    renewable_update_out_of_window, ?_, ?_⟩
  · intro ds regs hall p2 hp2
    simp only [DataSet.initialise_co2_emissions] at hp2
    rcases List.mem_map.mp hp2 with ⟨p, hp, rfl⟩
    cases hds : ds p.1 with
    | none => simp only [hds]; exact hall p hp
    | some data =>
      simp only [hds]
      exact InWindowD_co2_update data _ (hall p hp)
  · intro rows regs hall
    refine energy_production_preserves (fun r => InWindowD r.renewable_energy) ?_ rows regs hall
    intro amounts r hr
    exact InWindowD_renewable_update amounts r.renewable_energy hr

/-- Witness for C8 at concrete inputs: an empty series stays in-window
after merging records for 2020 (dropped) and 2016 (kept), and nothing is
written at the out-of-window year 2020. -/
theorem c8_window_closure_witness :
    InWindowD ([] : PyDict) ∧
    InWindowD (DataSet.co2_update [⟨2020, some 1⟩, ⟨2016, some 5⟩] []) ∧
    aget (DataSet.co2_update [⟨2020, some 1⟩, ⟨2016, some 5⟩] []) 2020 =
      aget ([] : PyDict) 2020 := by
  have h0 : InWindowD ([] : PyDict) := by
    intro k hk
    simp [akeys] at hk
  exact ⟨h0, c8_window_closure.1 _ _ h0, c8_window_closure.2.1 _ _ 2020 (by norm_num)⟩

/-- C10: a freshly constructed region has an entry (initially the `None`
sentinel) in every metric series for every year 1951..2016, and the merge
passes only ever write in-window keys, so every in-window read of every
series stays defined (never a missing-key error) across the pipeline. -/
theorem c10_full_window :
    (∀ y : Int, 1951 ≤ y → y ≤ 2016 → aget defualt_dict y = some none) ∧
    (∀ (name continent : String), FullWindowR { name := name, continent := some continent }) ∧
    (∀ (data : List CO2Line) (d : PyDict), FullWindowD d →
      FullWindowD (DataSet.co2_update data d)) ∧
    (∀ (amounts : Int → Option ℚ) (d : PyDict), FullWindowD d →
      FullWindowD (DataSet.renewable_update amounts d)) ∧
    (∀ (ds : String → Option (List CO2Line)) (regs : RegDict),
      (∀ p ∈ regs, FullWindowR p.2) →
      ∀ p2 ∈ DataSet.initialise_co2_emissions ds regs, FullWindowR p2.2) ∧
    (∀ (rows : List EnergyRow) (regs : RegDict),
      (∀ p ∈ regs, FullWindowR p.2) →
      ∀ p2 ∈ DataSet.energy_production rows regs, FullWindowR p2.2) := by
  have hdef : ∀ y : Int, 1951 ≤ y → y ≤ 2016 → aget defualt_dict y = some none := by
    intro y h1 h2
    rw [defualt_dict, aget_windowDict_of_window (fun _ => none) y h1 h2]
  refine ⟨hdef, ?_, FullWindowD_co2_update, FullWindowD_renewable_update, ?_, ?_⟩
  · intro name continent
    exact ⟨FullWindowD_defualt_dict, FullWindowD_defualt_dict, FullWindowD_defualt_dict,
      FullWindowD_defualt_dict, FullWindowD_defualt_dict, FullWindowD_defualt_dict,
      FullWindowD_defualt_dict⟩
  · intro ds regs hall p2 hp2
    simp only [DataSet.initialise_co2_emissions] at hp2
    rcases List.mem_map.mp hp2 with ⟨p, hp, rfl⟩
    cases hds : ds p.1 with
    | none => simp only [hds]; exact hall p hp
    | some data =>
      simp only [hds]
      obtain ⟨h1, h2, h3, h4, h5, h6, h7⟩ := hall p hp
      exact ⟨h1, FullWindowD_co2_update data _ h2, h3, h4, h5, h6, h7⟩
  · intro rows regs hall
    refine energy_production_preserves FullWindowR ?_ rows regs hall
    intro amounts r hr
    obtain ⟨h1, h2, h3, h4, h5, h6, h7⟩ := hr
    exact ⟨h1, h2, h3, h4, h5, FullWindowD_renewable_update amounts _ h6, h7⟩

/-- Witness for C10 at concrete inputs: the default series holds the
sentinel at 2016, a freshly constructed region covers the window in all
series, and a concrete CO₂ merge keeps the window covered. -/
theorem c10_full_window_witness :
    aget defualt_dict 2016 = some none ∧
    FullWindowR { name := "A", continent := some "Europe" } ∧
    FullWindowD (DataSet.co2_update [⟨2016, some 5⟩] defualt_dict) := by
  refine ⟨c10_full_window.1 2016 (by norm_num) (by norm_num),
    c10_full_window.2.1 "A" "Europe", ?_⟩
  refine c10_full_window.2.2.1 _ _ ?_
  intro y h1 h2
  rw [c10_full_window.1 y h1 h2]
  rfl

theorem build_registry_nodup (master : List (String × String)) (rs : RegDict)
    (h : (akeys rs).Nodup) :
    (akeys (master.foldl
      (fun rs nc => aset rs nc.1 { name := nc.1, continent := some nc.2 }) rs)).Nodup := by
  induction master generalizing rs with
  | nil => exact h
  | cons nc rest ih =>
    rw [List.foldl_cons]
    exact ih _ (akeys_nodup_aset _ _ _ h)

theorem DataSet.initialise_regions_ok (master : List (String × String)) (regs : RegDict)
    (h : DataSet.initialise_regions master = Except.ok regs) :
    (aget regs "United States").isSome ∧
    "United States of America" ∉ akeys regs ∧
    (akeys regs).Nodup := by
  simp only [DataSet.initialise_regions, bind, Except.bind] at h
  cases h1 : agetE (master.foldl
      (fun rs nc => aset rs nc.1 ({ name := nc.1, continent := some nc.2 } : Region)) [])
      "United Kingdom of Great Britain & Northern Ireland" with
  | error e =>
    rw [h1] at h
    cases h
  | ok uk =>
    simp only [h1] at h
    cases h2 : agetE (aset (adel (master.foldl
        (fun rs nc => aset rs nc.1 ({ name := nc.1, continent := some nc.2 } : Region)) [])
        "United Kingdom of Great Britain & Northern Ireland") "United Kingdom" uk)
        "United States of America" with
    | error e =>
      rw [h2] at h
      cases h
    | ok us =>
      simp only [h2, Except.ok.injEq] at h
      subst h
      refine ⟨?_, ?_, ?_⟩
      · rw [aget_aset_self]
        rfl
      · rw [← aget_eq_none_iff]
        rw [aget_aset_ne _ _ _ _ (by decide)]
        exact aget_adel_self _ _
      · apply akeys_nodup_aset
        apply akeys_nodup_adel
        apply akeys_nodup_aset
        apply akeys_nodup_adel
        exact build_registry_nodup master [] (by simp [akeys])

theorem energy_production_cons_absent (row : EnergyRow) (rest : List EnergyRow)
    (regs : RegDict)
    (hg : aget regs (if row.region = "USA" then "United States"
      else if row.region = "UK" then "United Kingdom" else row.region) = none) :
    DataSet.energy_production (row :: rest) regs =
      DataSet.energy_production rest regs := by
  simp only [DataSet.energy_production, List.foldl_cons, hg]

theorem energy_production_cons_present (row : EnergyRow) (rest : List EnergyRow)
    (regs : RegDict) (r : Region)
    (hg : aget regs (if row.region = "USA" then "United States"
      else if row.region = "UK" then "United Kingdom" else row.region) = some r) :
    DataSet.energy_production (row :: rest) regs =
      DataSet.energy_production rest
        (aset regs (if row.region = "USA" then "United States"
          else if row.region = "UK" then "United Kingdom" else row.region)
          { r with renewable_energy :=
              DataSet.renewable_update row.amounts r.renewable_energy }) := by
  simp only [DataSet.energy_production, List.foldl_cons, hg]

theorem energy_production_akeys (rows : List EnergyRow) (regs : RegDict) :
    akeys (DataSet.energy_production rows regs) = akeys regs := by
  induction rows generalizing regs with
  | nil => rfl
  | cons row rest ih =>
    cases hg : aget regs (if row.region = "USA" then "United States"
        else if row.region = "UK" then "United Kingdom" else row.region) with
    | none =>
      rw [energy_production_cons_absent row rest regs hg]
      exact ih regs
    | some r =>
      rw [energy_production_cons_present row rest regs r hg, ih]
      apply akeys_aset_of_mem
      rw [← aget_isSome_iff, hg]
      rfl

theorem projected_damage_cons_present (line : String × ℚ) (rest : List (String × ℚ))
    (regs : RegDict) (r : Region) (hg : aget regs line.1 = some r) :
    DataSet.initialise_projected_damage (line :: rest) regs =
      DataSet.initialise_projected_damage rest
        (aset regs line.1 { r with projected_damage := some line.2 }) := by
  simp only [DataSet.initialise_projected_damage, List.foldlM_cons, hg, bind, Except.bind]

theorem projected_damage_cons_usa (line : String × ℚ) (rest : List (String × ℚ))
    (regs : RegDict) (r : Region) (hg : aget regs line.1 = none)
    (hus : line.1 = "United States of America")
    (hok : aget regs "United States" = some r) :
    DataSet.initialise_projected_damage (line :: rest) regs =
      DataSet.initialise_projected_damage rest
        (aset regs "United States" { r with projected_damage := some line.2 }) := by
  simp only [DataSet.initialise_projected_damage, List.foldlM_cons, hg, if_pos hus,
    agetE, hok, bind, Except.bind]

theorem projected_damage_cons_skip (line : String × ℚ) (rest : List (String × ℚ))
    (regs : RegDict) (hg : aget regs line.1 = none)
    (hus : line.1 ≠ "United States of America") :
    DataSet.initialise_projected_damage (line :: rest) regs =
      DataSet.initialise_projected_damage rest regs := by
  simp only [DataSet.initialise_projected_damage, List.foldlM_cons, hg, if_neg hus,
    bind, Except.bind]

theorem projected_damage_akeys (rows : List (String × ℚ)) (regs regs2 : RegDict)
    (h : DataSet.initialise_projected_damage rows regs = Except.ok regs2) :
    akeys regs2 = akeys regs := by
  induction rows generalizing regs with
  | nil =>
    simp only [DataSet.initialise_projected_damage, List.foldlM_nil, pure, Except.pure,
      Except.ok.injEq] at h
    rw [h]
  | cons line rest ih =>
    cases hg : aget regs line.1 with
    | some r =>
      rw [projected_damage_cons_present line rest regs r hg] at h
      rw [ih _ h]
      apply akeys_aset_of_mem
      rw [← aget_isSome_iff, hg]
      rfl
    | none =>
      by_cases hus : line.1 = "United States of America"
      · cases hok : aget regs "United States" with
        | none =>
          rw [show DataSet.initialise_projected_damage (line :: rest) regs =
              Except.error PyError.keyError from by
            simp only [DataSet.initialise_projected_damage, List.foldlM_cons, hg,
              if_pos hus, agetE, hok, bind, Except.bind]] at h
          cases h
        | some r =>
          rw [projected_damage_cons_usa line rest regs r hg hus hok] at h
          rw [ih _ h]
          apply akeys_aset_of_mem
          rw [← aget_isSome_iff, hok]
          rfl
      · rw [projected_damage_cons_skip line rest regs hg hus] at h
        exact ih _ h

theorem energy_production_usa_alias (amounts : Int → Option ℚ) (regs : RegDict) :
    DataSet.energy_production [⟨"USA", amounts⟩] regs =
      DataSet.energy_production [⟨"United States", amounts⟩] regs := rfl

theorem energy_production_usa_merges (amounts : Int → Option ℚ) (regs : RegDict)
    (r : Region) (hus : aget regs "United States" = some r) :
    aget (DataSet.energy_production [⟨"USA", amounts⟩] regs) "United States" =
      some { r with renewable_energy :=
        DataSet.renewable_update amounts r.renewable_energy } := by
  have hstep : DataSet.energy_production [⟨"USA", amounts⟩] regs =
      aset regs "United States"
        { r with renewable_energy := DataSet.renewable_update amounts r.renewable_energy } := by
    simp only [DataSet.energy_production, List.foldl_cons, List.foldl_nil]
    norm_num [hus]
  rw [hstep]
  exact aget_aset_self _ _ _

theorem projected_damage_usa_alias (dmg : ℚ) (regs : RegDict) (r : Region)
    (hno : aget regs "United States of America" = none)
    (hus : aget regs "United States" = some r) :
    DataSet.initialise_projected_damage [("United States of America", dmg)] regs =
      Except.ok (aset regs "United States" { r with projected_damage := some dmg }) ∧
    DataSet.initialise_projected_damage [("United States", dmg)] regs =
      Except.ok (aset regs "United States" { r with projected_damage := some dmg }) := by
  constructor
  · rw [projected_damage_cons_usa ("United States of America", dmg) [] regs r hno rfl hus]
    rfl
  · rw [projected_damage_cons_present ("United States", dmg) [] regs r hus]
    rfl

/-- C7: alias resolution collapses source spellings into one canonical
entity: after registry initialisation "United States" is a registered key,
"United States of America" is not, and the key list has no duplicates; the
renewable-energy and projected-damage merge passes never create a new
entity; a row under the identifier "USA" merges exactly as a row under
"United States" and lands in that one entity's series; and a
projected-damage line under "United States of America" updates the
"United States" entry. -/
theorem c7_alias_resolution :
    (∀ (master : List (String × String)) (regs : RegDict),
      DataSet.initialise_regions master = Except.ok regs →
      (aget regs "United States").isSome ∧
      "United States of America" ∉ akeys regs ∧
      (akeys regs).Nodup) ∧
    (∀ (rows : List EnergyRow) (regs : RegDict),
      akeys (DataSet.energy_production rows regs) = akeys regs) ∧
    (∀ (rows : List (String × ℚ)) (regs regs2 : RegDict),
      DataSet.initialise_projected_damage rows regs = Except.ok regs2 →
      akeys regs2 = akeys regs) ∧
    (∀ (amounts : Int → Option ℚ) (regs : RegDict),
      DataSet.energy_production [⟨"USA", amounts⟩] regs =
        DataSet.energy_production [⟨"United States", amounts⟩] regs) ∧
    (∀ (amounts : Int → Option ℚ) (regs : RegDict) (r : Region),
      aget regs "United States" = some r →
      aget (DataSet.energy_production [⟨"USA", amounts⟩] regs) "United States" =
        some { r with renewable_energy :=
          DataSet.renewable_update amounts r.renewable_energy }) ∧
    (∀ (dmg : ℚ) (regs : RegDict) (r : Region),
      aget regs "United States of America" = none →
      aget regs "United States" = some r →
      DataSet.initialise_projected_damage [("United States of America", dmg)] regs =
        DataSet.initialise_projected_damage [("United States", dmg)] regs) :=
  ⟨DataSet.initialise_regions_ok, energy_production_akeys, projected_damage_akeys,
   energy_production_usa_alias, energy_production_usa_merges,
   fun dmg regs r hno hus =>
     ((projected_damage_usa_alias dmg regs r hno hus).1).trans
       ((projected_damage_usa_alias dmg regs r hno hus).2).symm⟩

/-- Witness for C7 at a concrete master list: both long spellings resolve
to the canonical entries, the long United States spelling is no registered
key, and a projected-damage line under either United States identifier
merges identically. -/
theorem c7_alias_resolution_witness :
    DataSet.initialise_regions exampleMaster = Except.ok exampleRegistry ∧
    (aget exampleRegistry "United States").isSome ∧
    "United States of America" ∉ akeys exampleRegistry ∧
    (akeys exampleRegistry).Nodup ∧
    DataSet.initialise_projected_damage [("United States of America", -5)] exampleRegistry =
      DataSet.initialise_projected_damage [("United States", -5)] exampleRegistry := by
  have hinit : DataSet.initialise_regions exampleMaster = Except.ok exampleRegistry := by rfl
  obtain ⟨h1, h2, h3⟩ := c7_alias_resolution.1 exampleMaster exampleRegistry hinit
  refine ⟨hinit, h1, h2, h3, ?_⟩
  exact c7_alias_resolution.2.2.2.2.2 (-5) exampleRegistry
    { name := "United States of America", continent := some "North America" } rfl rfl

theorem insert_before_lower_eq_of_no_lower (p : Option String × ℚ)
    (l : List (Option String × ℚ)) (h : ∀ q ∈ l, p.2 ≤ q.2) :
    FinalReport.insert_before_lower p l = l := by
  induction l with
  | nil => rfl
  | cons q rest ih =>
    have hq := h q (List.mem_cons_self q rest)
    simp only [FinalReport.insert_before_lower, if_neg (not_lt.mpr hq)]
    rw [ih (fun x hx => h x (List.mem_cons_of_mem q hx))]

theorem insert_before_lower_eq_split (p : Option String × ℚ)
    (l : List (Option String × ℚ)) (hlow : ∃ q ∈ l, q.2 < p.2) :
    FinalReport.insert_before_lower p l =
      (l.takeWhile fun q => decide (p.2 ≤ q.2)) ++
        p :: (l.dropWhile fun q => decide (p.2 ≤ q.2)) ∧
      (l.dropWhile fun q => decide (p.2 ≤ q.2)) ≠ [] := by
  induction l with
  | nil =>
    rcases hlow with ⟨q, hq, _⟩
    exact absurd hq (List.not_mem_nil q)
  | cons q rest ih =>
    by_cases hq : q.2 < p.2
    · have hd : (decide (p.2 ≤ q.2)) = false := by
        simp [not_le.mpr hq]
      constructor
      · simp [FinalReport.insert_before_lower, if_pos hq, List.takeWhile_cons, hd,
          List.dropWhile_cons]
      · simp [List.dropWhile_cons, hd]
    · have hple : p.2 ≤ q.2 := not_lt.mp hq
      have hd : (decide (p.2 ≤ q.2)) = true := by simp [hple]
      have hlow2 : ∃ x ∈ rest, x.2 < p.2 := by
        rcases hlow with ⟨x, hx, hxlt⟩
        rcases List.mem_cons.mp hx with rfl | hx
        · exact absurd hxlt hq
        · exact ⟨x, hx, hxlt⟩
      obtain ⟨ih1, ih2⟩ := ih hlow2
      constructor
      · simp only [FinalReport.insert_before_lower, if_neg hq, List.takeWhile_cons, hd,
          List.dropWhile_cons, if_true, cond_true, ih1]
        simp
      · simpa [List.dropWhile_cons, hd] using ih2

theorem mem_insert_before_lower (p x : Option String × ℚ) (l : List (Option String × ℚ))
    (h : x ∈ FinalReport.insert_before_lower p l) :
    x ∈ l ∨ (x = p ∧ ∃ q ∈ l, q.2 < p.2) := by
  induction l with
  | nil => exact absurd h (List.not_mem_nil x)
  | cons q rest ih =>
    by_cases hq : q.2 < p.2
    · simp only [FinalReport.insert_before_lower, if_pos hq] at h
      rcases List.mem_cons.mp h with rfl | h
      · exact Or.inr ⟨rfl, q, List.mem_cons_self q rest, hq⟩
      · exact Or.inl h
    · simp only [FinalReport.insert_before_lower, if_neg hq] at h
      rcases List.mem_cons.mp h with rfl | h
      · exact Or.inl (List.mem_cons_self x rest)
      · rcases ih h with h | ⟨rfl, q2, hq2, hlt⟩
        · exact Or.inl (List.mem_cons_of_mem q h)
        · exact Or.inr ⟨rfl, q2, List.mem_cons_of_mem q hq2, hlt⟩

theorem length_insert_before_lower (p : Option String × ℚ) (l : List (Option String × ℚ)) :
    (FinalReport.insert_before_lower p l).length = l.length ∨
    (FinalReport.insert_before_lower p l).length = l.length + 1 := by
  induction l with
  | nil => exact Or.inl rfl
  | cons q rest ih =>
    by_cases hq : q.2 < p.2
    · right
      simp [FinalReport.insert_before_lower, if_pos hq]
    · rcases ih with h | h
      · left
        simp [FinalReport.insert_before_lower, if_neg hq, h]
      · right
        simp [FinalReport.insert_before_lower, if_neg hq, h]

theorem pairwise_insert_before_lower (p : Option String × ℚ)
    (l : List (Option String × ℚ)) (h : l.Pairwise (fun a b => b.2 ≤ a.2)) :
    (FinalReport.insert_before_lower p l).Pairwise (fun a b => b.2 ≤ a.2) := by
  induction l with
  | nil => simp [FinalReport.insert_before_lower]
  | cons q rest ih =>
    rcases List.pairwise_cons.mp h with ⟨hq, hrest⟩
    by_cases hlt : q.2 < p.2
    · simp only [FinalReport.insert_before_lower, if_pos hlt]
      refine List.Pairwise.cons ?_ h
      intro x hx
      rcases List.mem_cons.mp hx with rfl | hx
      · exact le_of_lt hlt
      · exact le_trans (hq x hx) (le_of_lt hlt)
    · simp only [FinalReport.insert_before_lower, if_neg hlt]
      refine List.Pairwise.cons ?_ (ih hrest)
      intro x hx
      rcases mem_insert_before_lower p x rest hx with hx | ⟨rfl, _⟩
      · exact hq x hx
      · exact not_lt.mp hlt

theorem length_top10_step (t : List (Option String × ℚ)) (n : String) (s : ℚ)
    (h : t.length = 10) : (FinalReport.top10_step t n s).length = 10 := by
  rw [FinalReport.top10_step, List.length_take]
  rcases length_insert_before_lower (some n, s) t with h2 | h2 <;> rw [h2, h] <;> rfl

theorem mem_top10_step (t : List (Option String × ℚ)) (n : String) (s : ℚ)
    (x : Option String × ℚ) (h : x ∈ FinalReport.top10_step t n s) :
    x ∈ t ∨ (x = (some n, s) ∧ ∃ q ∈ t, q.2 < s) := by
  rw [FinalReport.top10_step] at h
  exact mem_insert_before_lower (some n, s) x t
    ((List.take_sublist 10 _).mem h)

theorem pairwise_top10_step (t : List (Option String × ℚ)) (n : String) (s : ℚ)
    (h : t.Pairwise (fun a b => b.2 ≤ a.2)) :
    (FinalReport.top10_step t n s).Pairwise (fun a b => b.2 ≤ a.2) :=
  (pairwise_insert_before_lower (some n, s) t h).sublist (List.take_sublist 10 _)

theorem countSome_top10_step (t : List (Option String × ℚ)) (n : String) (s : ℚ) :
    (FinalReport.top10_step t n s).countP (fun q => q.1.isSome) ≤
      t.countP (fun q => q.1.isSome) + 1 := by
  refine le_trans (List.Sublist.countP_le _ (List.take_sublist 10 _)) ?_
  by_cases hlow : ∃ q ∈ t, q.2 < s
  · obtain ⟨hsplit, _⟩ := insert_before_lower_eq_split (some n, s) t hlow
    rw [hsplit]
    have htw := List.takeWhile_append_dropWhile (fun q => decide (s ≤ q.2)) t
    calc (((t.takeWhile fun q => decide (s ≤ q.2)) ++
          (some n, s) :: (t.dropWhile fun q => decide (s ≤ q.2))).countP
            (fun q => q.1.isSome))
        = ((t.takeWhile fun q => decide (s ≤ q.2)).countP (fun q => q.1.isSome)) +
            (((some n, s) :: (t.dropWhile fun q => decide (s ≤ q.2))).countP
              (fun q => q.1.isSome)) := List.countP_append _ _ _
      _ ≤ ((t.takeWhile fun q => decide (s ≤ q.2)).countP (fun q => q.1.isSome)) +
            (((t.dropWhile fun q => decide (s ≤ q.2)).countP (fun q => q.1.isSome)) + 1) := by
          rw [List.countP_cons]
          simp
      _ = t.countP (fun q => q.1.isSome) + 1 := by
          have hcount : ((t.takeWhile fun q => decide (s ≤ q.2)).countP
                (fun q => q.1.isSome)) +
              ((t.dropWhile fun q => decide (s ≤ q.2)).countP (fun q => q.1.isSome)) =
              t.countP (fun q => q.1.isSome) := by
            rw [← List.countP_append, htw]
          omega
  · push_neg at hlow
    rw [insert_before_lower_eq_of_no_lower (some n, s) t hlow]
    omega

theorem top10_step_eq_of_no_lower (t : List (Option String × ℚ)) (n : String) (s : ℚ)
    (hlen : t.length = 10) (hno : ∀ q ∈ t, s ≤ q.2) :
    FinalReport.top10_step t n s = t := by
  rw [FinalReport.top10_step, insert_before_lower_eq_of_no_lower (some n, s) t hno,
    ← hlen, List.take_length]

theorem top10_step_eq_of_lower (t : List (Option String × ℚ)) (n : String) (s : ℚ)
    (hlen : t.length = 10) (hlow : ∃ q ∈ t, q.2 < s) :
    FinalReport.top10_step t n s =
      (t.takeWhile fun q => decide (s ≤ q.2)) ++
        (some n, s) :: (t.dropWhile fun q => decide (s ≤ q.2)).dropLast := by
  obtain ⟨hsplit, hdw⟩ := insert_before_lower_eq_split (some n, s) t hlow
  have htw := List.takeWhile_append_dropWhile (fun q => decide (s ≤ q.2)) t
  have hlentd : (t.takeWhile fun q => decide (s ≤ q.2)).length +
      (t.dropWhile fun q => decide (s ≤ q.2)).length = 10 := by
    rw [← hlen, ← List.length_append, htw]
  have hdwpos : 0 < (t.dropWhile fun q => decide (s ≤ q.2)).length :=
    List.length_pos.mpr hdw
  rw [FinalReport.top10_step, hsplit, List.take_append_eq_append_take]
  have h1 : List.take 10 (t.takeWhile fun q => decide (s ≤ q.2)) =
      (t.takeWhile fun q => decide (s ≤ q.2)) := by
    apply List.take_of_length_le
    omega
  rw [h1]
  congr 1
  have h2 : 10 - (t.takeWhile fun q => decide (s ≤ q.2)).length =
      ((t.dropWhile fun q => decide (s ≤ q.2)).length - 1) + 1 := by omega
  rw [h2, List.take_succ_cons]
  congr 1
  rw [List.dropLast_eq_take]

theorem covered_new_top10_step (t : List (Option String × ℚ)) (n : String) (s : ℚ)
    (hlen : t.length = 10) :
    (some n, s) ∈ FinalReport.top10_step t n s ∨
      ∀ q ∈ FinalReport.top10_step t n s, s ≤ q.2 := by
  by_cases hlow : ∃ q ∈ t, q.2 < s
  · left
    rw [top10_step_eq_of_lower t n s hlen hlow]
    exact List.mem_append_right _ (List.mem_cons_self _ _)
  · right
    push_neg at hlow
    rw [top10_step_eq_of_no_lower t n s hlen hlow]
    exact hlow

theorem pairwise_getLast_min (l : List (Option String × ℚ)) (hne : l ≠ [])
    (hsort : l.Pairwise (fun a b => b.2 ≤ a.2)) :
    ∀ q ∈ l, (l.getLast hne).2 ≤ q.2 := by
  intro q hq
  have hdecomp := List.dropLast_append_getLast hne
  rw [← hdecomp] at hsort hq
  rcases List.mem_append.mp hq with hq2 | hq2
  · exact (List.pairwise_append.mp hsort).2.2 q hq2 _ (List.mem_singleton.mpr rfl)
  · rw [List.mem_singleton.mp hq2]

theorem covered_pres_top10_step (t : List (Option String × ℚ)) (n : String) (s : ℚ)
    (x : Option String × ℚ)
    (hsort : t.Pairwise (fun a b => b.2 ≤ a.2)) (hlen : t.length = 10)
    (hcov : x ∈ t ∨ ∀ q ∈ t, x.2 ≤ q.2) :
    x ∈ FinalReport.top10_step t n s ∨ ∀ q ∈ FinalReport.top10_step t n s, x.2 ≤ q.2 := by
  by_cases hlow : ∃ q ∈ t, q.2 < s
  · obtain ⟨q0, hq0, hq0lt⟩ := hlow
    have hstep := top10_step_eq_of_lower t n s hlen ⟨q0, hq0, hq0lt⟩
    have htw := List.takeWhile_append_dropWhile (fun q => decide (s ≤ q.2)) t
    have hdw : (t.dropWhile fun q => decide (s ≤ q.2)) ≠ [] :=
      (insert_before_lower_eq_split (some n, s) t ⟨q0, hq0, hq0lt⟩).2
    rcases hcov with hx | hx
    · by_cases hxin : x ∈ FinalReport.top10_step t n s
      · exact Or.inl hxin
      · right
        rw [hstep] at hxin
        have hxTW : x ∉ (t.takeWhile fun q => decide (s ≤ q.2)) :=
          fun hc => hxin (List.mem_append_left _ hc)
        have hxDL : x ∉ (t.dropWhile fun q => decide (s ≤ q.2)).dropLast :=
          fun hc => hxin (List.mem_append_right _ (List.mem_cons_of_mem _ hc))
        have hxDW : x ∈ (t.dropWhile fun q => decide (s ≤ q.2)) := by
          rw [← htw] at hx
          rcases List.mem_append.mp hx with hc | hc
          · exact absurd hc hxTW
          · exact hc
        have hxlast : x = (t.dropWhile fun q => decide (s ≤ q.2)).getLast hdw := by
          have hd := List.dropLast_append_getLast hdw
          rw [← hd] at hxDW
          rcases List.mem_append.mp hxDW with hc | hc
          · exact absurd hc hxDL
          · exact List.mem_singleton.mp hc
        have hsort2 : ((t.takeWhile fun q => decide (s ≤ q.2)) ++
            (t.dropWhile fun q => decide (s ≤ q.2))).Pairwise (fun a b => b.2 ≤ a.2) := by
          rw [htw]
          exact hsort
        have hsplit2 := List.pairwise_append.mp hsort2
        have hmin : ∀ q ∈ t, x.2 ≤ q.2 := by
          intro q hq
          rw [← htw] at hq
          rcases List.mem_append.mp hq with hqTW | hqDW2
          · exact hsplit2.2.2 q hqTW x hxDW
          · rw [hxlast]
            exact pairwise_getLast_min _ hdw hsplit2.2.1 q hqDW2
        have hxs : x.2 < s := lt_of_le_of_lt (hmin q0 hq0) hq0lt
        intro q hq
        rcases mem_top10_step t n s q hq with hq2 | ⟨rfl, _⟩
        · exact hmin q hq2
        · exact le_of_lt hxs
    · right
      intro q hq
      rcases mem_top10_step t n s q hq with hq2 | ⟨rfl, _⟩
      · exact hx q hq2
      · exact le_of_lt (lt_of_le_of_lt (hx q0 hq0) hq0lt)
  · push_neg at hlow
    rw [top10_step_eq_of_no_lower t n s hlen hlow]
    exact hcov

theorem top10_fold_from_length (cands : List (String × ℚ)) (t : List (Option String × ℚ))
    (h : t.length = 10) :
    (cands.foldl (fun t c => FinalReport.top10_step t c.1 c.2) t).length = 10 := by
  induction cands generalizing t with
  | nil => exact h
  | cons c rest ih => exact ih _ (length_top10_step t c.1 c.2 h)

theorem top10_fold_from_pairwise (cands : List (String × ℚ)) (t : List (Option String × ℚ))
    (h : t.Pairwise (fun a b => b.2 ≤ a.2)) :
    (cands.foldl (fun t c => FinalReport.top10_step t c.1 c.2) t).Pairwise
      (fun a b => b.2 ≤ a.2) := by
  induction cands generalizing t with
  | nil => exact h
  | cons c rest ih => exact ih _ (pairwise_top10_step t c.1 c.2 h)

theorem top10_fold_from_mem (cands : List (String × ℚ)) (t : List (Option String × ℚ)) :
    ∀ x ∈ cands.foldl (fun t c => FinalReport.top10_step t c.1 c.2) t,
      x ∈ t ∨ ∃ c ∈ cands, x = (some c.1, c.2) := by
  induction cands generalizing t with
  | nil => exact fun x hx => Or.inl hx
  | cons c rest ih =>
    intro x hx
    rcases ih _ x hx with hx2 | ⟨c2, hc2, rfl⟩
    · rcases mem_top10_step t c.1 c.2 x hx2 with hx3 | ⟨rfl, _⟩
      · exact Or.inl hx3
      · exact Or.inr ⟨c, List.mem_cons_self c rest, rfl⟩
    · exact Or.inr ⟨c2, List.mem_cons_of_mem c hc2, rfl⟩

theorem top10_fold_from_pos (cands : List (String × ℚ)) (t : List (Option String × ℚ))
    (h0 : ∀ q ∈ t, 0 ≤ q.2) (h1 : ∀ n s, (some n, s) ∈ t → 0 < s) :
    (∀ q ∈ cands.foldl (fun t c => FinalReport.top10_step t c.1 c.2) t, 0 ≤ q.2) ∧
    (∀ n s, (some n, s) ∈ cands.foldl (fun t c => FinalReport.top10_step t c.1 c.2) t →
      0 < s) := by
  induction cands generalizing t with
  | nil => exact ⟨h0, h1⟩
  | cons c rest ih =>
    refine ih _ ?_ ?_
    · intro q hq
      rcases mem_top10_step t c.1 c.2 q hq with hq2 | ⟨rfl, q0, hq0, hq0lt⟩
      · exact h0 q hq2
      · exact le_of_lt (lt_of_le_of_lt (h0 q0 hq0) hq0lt)
    · intro n s hns
      rcases mem_top10_step t c.1 c.2 _ hns with hns2 | ⟨heq, q0, hq0, hq0lt⟩
      · exact h1 n s hns2
      · have hs2 : s = c.2 := congrArg Prod.snd heq
        rw [hs2]
        exact lt_of_le_of_lt (h0 q0 hq0) hq0lt

theorem top10_fold_from_countSome (cands : List (String × ℚ))
    (t : List (Option String × ℚ)) :
    (cands.foldl (fun t c => FinalReport.top10_step t c.1 c.2) t).countP
        (fun q => q.1.isSome) ≤
      t.countP (fun q => q.1.isSome) + cands.length := by
  induction cands generalizing t with
  | nil => simp
  | cons c rest ih =>
    refine le_trans (ih _) ?_
    have := countSome_top10_step t c.1 c.2
    simp only [List.length_cons]
    omega

theorem top10_fold_covered_pres (cands : List (String × ℚ)) (t : List (Option String × ℚ))
    (x : Option String × ℚ) (hsort : t.Pairwise (fun a b => b.2 ≤ a.2))
    (hlen : t.length = 10) (hcov : x ∈ t ∨ ∀ q ∈ t, x.2 ≤ q.2) :
    x ∈ cands.foldl (fun t c => FinalReport.top10_step t c.1 c.2) t ∨
      ∀ q ∈ cands.foldl (fun t c => FinalReport.top10_step t c.1 c.2) t, x.2 ≤ q.2 := by
  induction cands generalizing t with
  | nil => exact hcov
  | cons c rest ih =>
    exact ih _ (pairwise_top10_step t c.1 c.2 hsort) (length_top10_step t c.1 c.2 hlen)
      (covered_pres_top10_step t c.1 c.2 x hsort hlen hcov)

theorem top10_fold_from_covered (cands : List (String × ℚ)) (t : List (Option String × ℚ))
    (hsort : t.Pairwise (fun a b => b.2 ≤ a.2)) (hlen : t.length = 10) :
    ∀ c ∈ cands,
      (some c.1, c.2) ∈ cands.foldl (fun t c => FinalReport.top10_step t c.1 c.2) t ∨
      ∀ q ∈ cands.foldl (fun t c => FinalReport.top10_step t c.1 c.2) t, c.2 ≤ q.2 := by
  induction cands generalizing t with
  | nil => intro c hc; exact absurd hc (List.not_mem_nil c)
  | cons c0 rest ih =>
    intro c hc
    rcases List.mem_cons.mp hc with rfl | hc
    · exact top10_fold_covered_pres rest _ (some c.1, c.2)
        (pairwise_top10_step t c.1 c.2 hsort) (length_top10_step t c.1 c.2 hlen)
        (covered_new_top10_step t c.1 c.2 hlen)
    · exact ih _ (pairwise_top10_step t c0.1 c0.2 hsort)
        (length_top10_step t c0.1 c0.2 hlen) c hc

theorem greatest_help_pairs_eq_fold (regions : RegDict) :
    FinalReport.greatest_help_pairs regions =
      FinalReport.top10_fold (regions.filterMap
        (fun p => (p.2.region_score).map (fun s => (p.1, s)))) := by
  rw [FinalReport.greatest_help_pairs, FinalReport.top10_fold]
  generalize List.replicate 10 ((none : Option String), (0 : ℚ)) = t
  induction regions generalizing t with
  | nil => rfl
  | cons p rest ih =>
    cases hs : p.2.region_score with
    | none =>
      rw [List.foldl_cons, List.filterMap_cons_none (by rw [hs]; rfl)]
      have hstep : (match p.2.region_score with
          | none => t
          | some score => FinalReport.top10_step t p.1 score) = t := by
        rw [hs]
      rw [hstep]
      exact ih t
    | some s =>
      rw [List.foldl_cons, List.filterMap_cons_some (by rw [hs]; rfl),
        List.foldl_cons]
      have hstep : (match p.2.region_score with
          | none => t
          | some score => FinalReport.top10_step t p.1 score) =
          FinalReport.top10_step t p.1 s := by
        rw [hs]
      rw [hstep]
      exact ih _

theorem length_filterMap_eq_countP {α β : Type} (f : α → Option β) (l : List α) :
    (l.filterMap f).length = l.countP (fun a => (f a).isSome) := by
  induction l with
  | nil => rfl
  | cons a rest ih =>
    cases hf : f a with
    | none =>
      rw [List.filterMap_cons_none hf, List.countP_cons]
      simp [hf, ih]
    | some b =>
      rw [List.filterMap_cons_some hf, List.countP_cons]
      simp [hf, ih]

theorem largest_co2_loop_eq (regions : RegDict) (t : List (Option String × ℚ))
    (hkeys : ∀ p ∈ regions, (aget p.2.co2_emissions 2016).isSome) :
    (regions.foldlM (fun top10 p => do
        let emissions ← agetE p.2.co2_emissions 2016
        match emissions with
        | none => Except.ok top10
        | some e => Except.ok (FinalReport.top10_step top10 p.1 e)) t :
      Except PyError (List (Option String × ℚ))) =
      Except.ok ((regions.filterMap (fun p =>
        match aget p.2.co2_emissions 2016 with
        | some (some e) => some (p.1, e)
        | _ => none)).foldl (fun t c => FinalReport.top10_step t c.1 c.2) t) := by
  induction regions generalizing t with
  | nil => rfl
  | cons p rest ih =>
    have hk := hkeys p (List.mem_cons_self p rest)
    obtain ⟨v, hv⟩ := Option.isSome_iff_exists.mp hk
    have hag : agetE p.2.co2_emissions 2016 = Except.ok v := by simp [agetE, hv]
    have hrest : ∀ q ∈ rest, (aget q.2.co2_emissions 2016).isSome :=
      fun q hq => hkeys q (List.mem_cons_of_mem p hq)
    rw [List.foldlM_cons]
    cases v with
    | none =>
      rw [List.filterMap_cons_none (by rw [hv])]
      have hstep : ((do
          let emissions ← agetE p.2.co2_emissions 2016
          match emissions with
          | none => Except.ok t
          | some e => Except.ok (FinalReport.top10_step t p.1 e)) :
            Except PyError (List (Option String × ℚ))) = Except.ok t := by
        rw [show ((do
            let emissions ← agetE p.2.co2_emissions 2016
            match emissions with
            | none => Except.ok t
            | some e => Except.ok (FinalReport.top10_step t p.1 e)) :
              Except PyError (List (Option String × ℚ))) =
          Except.bind (agetE p.2.co2_emissions 2016) (fun emissions =>
            match emissions with
            | none => Except.ok t
            | some e => Except.ok (FinalReport.top10_step t p.1 e)) from rfl, hag]
        rfl
      rw [hstep]
      simp only [bind, Except.bind]
      exact ih t hrest
    | some e =>
      rw [List.filterMap_cons_some (by rw [hv]), List.foldl_cons]
      have hstep : ((do
          let emissions ← agetE p.2.co2_emissions 2016
          match emissions with
          | none => Except.ok t
          | some e => Except.ok (FinalReport.top10_step t p.1 e)) :
            Except PyError (List (Option String × ℚ))) =
          Except.ok (FinalReport.top10_step t p.1 e) := by
        rw [show ((do
            let emissions ← agetE p.2.co2_emissions 2016
            match emissions with
            | none => Except.ok t
            | some e => Except.ok (FinalReport.top10_step t p.1 e)) :
              Except PyError (List (Option String × ℚ))) =
          Except.bind (agetE p.2.co2_emissions 2016) (fun emissions =>
            match emissions with
            | none => Except.ok t
            | some e => Except.ok (FinalReport.top10_step t p.1 e)) from rfl, hag]
        rfl
      rw [hstep]
      simp only [bind, Except.bind]
      exact ih _ hrest

theorem largest_co2_eq (regions : RegDict)
    (hkeys : ∀ p ∈ regions, (aget p.2.co2_emissions 2016).isSome) :
    FinalReport.largest_co2 regions =
      Except.ok ((FinalReport.top10_fold (regions.filterMap (fun p =>
        match aget p.2.co2_emissions (2016 : Int) with
        | some (some e) => some (p.1, e)
        | _ => none))).map Prod.fst) := by
  simp only [FinalReport.largest_co2]
  rw [largest_co2_loop_eq regions _ hkeys]
  rfl

theorem replicate_init_length : (List.replicate 10 ((none : Option String), (0 : ℚ))).length = 10 :=
  List.length_replicate 10 _

theorem replicate_init_pairwise :
    (List.replicate 10 ((none : Option String), (0 : ℚ))).Pairwise (fun a b => b.2 ≤ a.2) :=
  List.pairwise_replicate.mpr (Or.inr (le_refl 0))

theorem replicate_init_nonneg :
    ∀ q ∈ List.replicate 10 ((none : Option String), (0 : ℚ)), 0 ≤ q.2 := by
  intro q hq
  rw [(List.mem_replicate.mp hq).2]

theorem replicate_init_nosome :
    ∀ (n : String) (s : ℚ),
      (some n, s) ∈ List.replicate 10 ((none : Option String), (0 : ℚ)) → 0 < s := by
  intro n s hns
  have := (List.mem_replicate.mp hns).2
  cases this

/-- C4 counterexample: a lone region with the present score -1 is not
ranked at all (its name never appears in the leaderboard), although it is
the single region with a present score; present zero or negative scores
never displace the `(None, 0)` sentinel slots. -/
theorem c4_negative_score_counterexample :
    some "B" ∉ FinalReport.greatest_help [("B", exampleNegativeScoreRegion)] := by decide

/-- C4 (amended): the leaderboard pair list behind `greatest_help` always
has exactly 10 slots sorted by descending score; its named entries are
precisely regions whose score is present and strictly positive; every
region with a present strictly positive score either appears on the board
or scores no more than every slot; absent scores are excluded, and zero or
negative present scores are excluded like absent ones. -/
theorem c4_top10_ranking_amended (regions : RegDict) :
    FinalReport.greatest_help regions =
      (FinalReport.greatest_help_pairs regions).map Prod.fst ∧
    (FinalReport.greatest_help_pairs regions).length = 10 ∧
    (FinalReport.greatest_help_pairs regions).Pairwise (fun a b => b.2 ≤ a.2) ∧
    (∀ (n : String) (s : ℚ), (some n, s) ∈ FinalReport.greatest_help_pairs regions →
      0 < s ∧ ∃ p ∈ regions, p.1 = n ∧ p.2.region_score = some s) ∧
    (∀ p ∈ regions, ∀ s : ℚ, p.2.region_score = some s → 0 < s →
      (some p.1, s) ∈ FinalReport.greatest_help_pairs regions ∨
      ∀ q ∈ FinalReport.greatest_help_pairs regions, s ≤ q.2) := by
  have heq := greatest_help_pairs_eq_fold regions
  have hlen : (FinalReport.greatest_help_pairs regions).length = 10 := by
    rw [heq]
    exact top10_fold_from_length _ _ replicate_init_length
  have hsort : (FinalReport.greatest_help_pairs regions).Pairwise
      (fun a b => b.2 ≤ a.2) := by
    rw [heq]
    exact top10_fold_from_pairwise _ _ replicate_init_pairwise
  refine ⟨rfl, hlen, hsort, ?_, ?_⟩
  · intro n s hns
    rw [heq] at hns
    have hpos := (top10_fold_from_pos _ _ replicate_init_nonneg replicate_init_nosome).2
      n s hns
    refine ⟨hpos, ?_⟩
    rcases top10_fold_from_mem _ _ _ hns with hmem | ⟨c, hc, hceq⟩
    · exact absurd (List.mem_replicate.mp hmem).2 (by simp)
    · rcases List.mem_filterMap.mp hc with ⟨p, hp, hfp⟩
      rcases Option.map_eq_some'.mp hfp with ⟨s0, hs0, hc2⟩
      have hn : n = p.1 := by
        rw [← hc2] at hceq
        exact Option.some_inj.mp (congrArg Prod.fst hceq)
      have hs : s = s0 := by
        rw [← hc2] at hceq
        exact congrArg Prod.snd hceq
      exact ⟨p, hp, hn.symm, by rw [hs0, hs]⟩
  · intro p hp s hscore hspos
    have hc : (p.1, s) ∈ regions.filterMap
        (fun p => (p.2.region_score).map (fun s => (p.1, s))) :=
      List.mem_filterMap.mpr ⟨p, hp, by rw [hscore]; rfl⟩
    rw [heq]
    exact top10_fold_from_covered _ _ replicate_init_pairwise replicate_init_length
      (p.1, s) hc

/-- Witness for C4 (amended) at a lone region with score 5. -/
theorem c4_top10_ranking_amended_witness :
    ("A", exampleSingleScoreRegion) ∈ [("A", exampleSingleScoreRegion)] ∧
    exampleSingleScoreRegion.region_score = some 5 ∧ (0 : ℚ) < 5 ∧
    (FinalReport.greatest_help_pairs [("A", exampleSingleScoreRegion)]).length = 10 ∧
    ((some "A", (5 : ℚ)) ∈ FinalReport.greatest_help_pairs [("A", exampleSingleScoreRegion)] ∨
      ∀ q ∈ FinalReport.greatest_help_pairs [("A", exampleSingleScoreRegion)], (5 : ℚ) ≤ q.2) := by
  refine ⟨by simp, rfl, by norm_num, (c4_top10_ranking_amended _).2.1, ?_⟩
  exact (c4_top10_ranking_amended [("A", exampleSingleScoreRegion)]).2.2.2.2
    ("A", exampleSingleScoreRegion) (by simp) 5 rfl (by norm_num)

/-- C3 counterexample: with a single valid region the ranking still returns
10 entries, padded with `None` placeholders, instead of a single-entry
result. -/
theorem c3_padding_counterexample :
    (FinalReport.greatest_help [("A", exampleSingleScoreRegion)]).length = 10 ∧
    (none : Option String) ∈ FinalReport.greatest_help [("A", exampleSingleScoreRegion)] := by
  constructor <;> decide

theorem countSome_pairs_le (regions : RegDict) :
    (FinalReport.greatest_help_pairs regions).countP (fun q => q.1.isSome) ≤
      regions.countP (fun p => (p.2.region_score).isSome) := by
  rw [greatest_help_pairs_eq_fold]
  refine le_trans (top10_fold_from_countSome _ _) ?_
  have hinit : (List.replicate 10 ((none : Option String), (0 : ℚ))).countP
      (fun q => q.1.isSome) = 0 := rfl
  rw [hinit, length_filterMap_eq_countP, Nat.zero_add]
  apply le_of_eq
  apply List.countP_congr
  intro p _
  cases p.2.region_score <;> rfl

theorem exists_none_of_few (pairs : List (Option String × ℚ)) (hlen : pairs.length = 10)
    (hcount : pairs.countP (fun q => q.1.isSome) < 10) :
    ∃ q ∈ pairs, q.1 = none := by
  by_contra hcon
  push_neg at hcon
  have : pairs.countP (fun q => q.1.isSome) = pairs.length := by
    rw [List.countP_eq_length]
    intro q hq
    cases hqq : q.1 with
    | none => exact absurd hqq (hcon q hq)
    | some v => rfl
  omega

/-- C3 (amended): the two top-10 rankings always return exactly 10 entries;
the non-placeholder entries name only regions with a present (non-`None`)
value, and whenever fewer than 10 regions have a present value the result
is padded with `None` placeholder entries rather than shortened. -/
theorem c3_top10_padding_amended :
    (∀ regions : RegDict,
      (FinalReport.greatest_help regions).length = 10 ∧
      (∀ n : String, some n ∈ FinalReport.greatest_help regions →
        ∃ p ∈ regions, p.1 = n ∧ (p.2.region_score).isSome) ∧
      ((regions.countP fun p => (p.2.region_score).isSome) < 10 →
        (none : Option String) ∈ FinalReport.greatest_help regions)) ∧
    (∀ regions : RegDict, (∀ p ∈ regions, (aget p.2.co2_emissions (2016 : Int)).isSome) →
      ∃ l, FinalReport.largest_co2 regions = Except.ok l ∧ l.length = 10 ∧
        (∀ n : String, some n ∈ l →
          ∃ p ∈ regions, p.1 = n ∧
            ∃ e : ℚ, aget p.2.co2_emissions (2016 : Int) = some (some e)) ∧
        ((regions.countP fun p =>
            match aget p.2.co2_emissions (2016 : Int) with
            | some (some _) => true
            | _ => false) < 10 →
          (none : Option String) ∈ l)) := by
  constructor
  · intro regions
    have hplen : (FinalReport.greatest_help_pairs regions).length = 10 := by
      rw [greatest_help_pairs_eq_fold]
      exact top10_fold_from_length _ _ replicate_init_length
    refine ⟨?_, ?_, ?_⟩
    · rw [FinalReport.greatest_help, List.length_map]
      exact hplen
    · intro n hn
      rcases List.mem_map.mp hn with ⟨q, hq, hq1⟩
      have hq2 : (some n, q.2) ∈ FinalReport.greatest_help_pairs regions := by
        have : q = (some n, q.2) := by
          rw [← hq1]
        rw [← this]
        exact hq
      rw [greatest_help_pairs_eq_fold] at hq2
      rcases top10_fold_from_mem _ _ _ hq2 with hmem | ⟨c, hc, hceq⟩
      · exact absurd (List.mem_replicate.mp hmem).2 (by simp)
      · rcases List.mem_filterMap.mp hc with ⟨p, hp, hfp⟩
        rcases Option.map_eq_some'.mp hfp with ⟨s0, hs0, hc2⟩
        refine ⟨p, hp, ?_, by rw [hs0]; rfl⟩
        rw [← hc2] at hceq
        exact (Option.some_inj.mp (congrArg Prod.fst hceq)).symm
    · intro hcount
      have hle := countSome_pairs_le regions
      obtain ⟨q, hq, hq1⟩ := exists_none_of_few (FinalReport.greatest_help_pairs regions)
        hplen (by omega)
      rw [FinalReport.greatest_help]
      exact List.mem_map.mpr ⟨q, hq, hq1⟩
  · intro regions hkeys
    have heq := largest_co2_eq regions hkeys
    set cands := regions.filterMap (fun p =>
      match aget p.2.co2_emissions (2016 : Int) with
      | some (some e) => some (p.1, e)
      | _ => none) with hcands
    have hflen : (FinalReport.top10_fold cands).length = 10 := by
      rw [FinalReport.top10_fold]
      exact top10_fold_from_length _ _ replicate_init_length
    refine ⟨(FinalReport.top10_fold cands).map Prod.fst, heq, ?_, ?_, ?_⟩
    · rw [List.length_map]
      exact hflen
    · intro n hn
      rcases List.mem_map.mp hn with ⟨q, hq, hq1⟩
      have hq2 : (some n, q.2) ∈ FinalReport.top10_fold cands := by
        have : q = (some n, q.2) := by
          rw [← hq1]
        rw [← this]
        exact hq
      rw [FinalReport.top10_fold] at hq2
      rcases top10_fold_from_mem _ _ _ hq2 with hmem | ⟨c, hc, hceq⟩
      · exact absurd (List.mem_replicate.mp hmem).2 (by simp)
      · rcases List.mem_filterMap.mp hc with ⟨p, hp, hfp⟩
        cases hval : aget p.2.co2_emissions (2016 : Int) with
        | none =>
          rw [hval] at hfp
          cases hfp
        | some v =>
          cases v with
          | none =>
            rw [hval] at hfp
            cases hfp
          | some e =>
            rw [hval] at hfp
            have hc2 : (p.1, e) = c := Option.some_inj.mp hfp
            refine ⟨p, hp, ?_, e, hval⟩
            rw [← hc2] at hceq
            exact (Option.some_inj.mp (congrArg Prod.fst hceq)).symm
    · intro hcount
      have hle : (FinalReport.top10_fold cands).countP (fun q => q.1.isSome) ≤
          regions.countP (fun p =>
            match aget p.2.co2_emissions (2016 : Int) with
            | some (some _) => true
            | _ => false) := by
        rw [FinalReport.top10_fold]
        refine le_trans (top10_fold_from_countSome _ _) ?_
        have hinit : (List.replicate 10 ((none : Option String), (0 : ℚ))).countP
            (fun q => q.1.isSome) = 0 := rfl
        rw [hinit, hcands, length_filterMap_eq_countP, Nat.zero_add]
        apply le_of_eq
        apply List.countP_congr
        intro p _
        cases hval : aget p.2.co2_emissions (2016 : Int) with
        | none => rfl
        | some v => cases v <;> rfl
      obtain ⟨q, hq, hq1⟩ := exists_none_of_few (FinalReport.top10_fold cands)
        hflen (by omega)
      exact List.mem_map.mpr ⟨q, hq, hq1⟩

/-- Witness for C3 (amended) at a lone-region registry. -/
theorem c3_top10_padding_amended_witness :
    (([("A", exampleSingleScoreRegion)] : RegDict).countP
      (fun p => (p.2.region_score).isSome)) < 10 ∧
    (FinalReport.greatest_help [("A", exampleSingleScoreRegion)]).length = 10 ∧
    (∀ p ∈ ([("A", exampleSingleScoreRegion)] : RegDict),
      (aget p.2.co2_emissions (2016 : Int)).isSome) ∧
    ∃ l, FinalReport.largest_co2 [("A", exampleSingleScoreRegion)] = Except.ok l ∧
      l.length = 10 ∧ (none : Option String) ∈ l := by
  have hkeys : ∀ p ∈ ([("A", exampleSingleScoreRegion)] : RegDict),
      (aget p.2.co2_emissions (2016 : Int)).isSome := by
    intro p hp
    rcases List.mem_singleton.mp hp with rfl
    rfl
  obtain ⟨l, hl, hlen, _, hpad⟩ := c3_top10_padding_amended.2
    [("A", exampleSingleScoreRegion)] hkeys
  refine ⟨by decide, (c3_top10_padding_amended.1 [("A", exampleSingleScoreRegion)]).1,
    hkeys, l, hl, hlen, hpad (by decide)⟩
